import Mathlib

/-!
Verification of the financial-market ETL core (MetricsCalculator and
DataValidator) against its specification.

The embedding is columnar, mirroring the pandas DataFrame layout used by the
source: a frame is a record of columns, each a list of optional cells
(a missing cell models a NaN entry).  Machine floats are modelled by exact
rationals; the only float-specific behaviours the source relies on are the
comparison semantics of NaN (every comparison with NaN is false) and the
division conventions for x/0, which are modelled explicitly where they occur.
-/

/-- A cell of a numeric column: none models a NaN / missing entry. -/
abbrev Cell := Option ℚ

/-- Comparison lifted to cells the way pandas and Python compare floats:
any comparison involving NaN yields False. -/
def oLt (a b : Cell) : Bool :=
  match a, b with
  | some x, some y => decide (x < y)
  | _, _ => false

/-- Forward fill with a carried last-valid value, as pandas ffill does
per column: a missing cell is replaced by the most recent valid value. -/
def ffillAux (cur : Option α) : List (Option α) → List (Option α)
  | [] => []
  | none :: xs => cur :: ffillAux cur xs
  | some v :: xs => some v :: ffillAux (some v) xs

/-- pandas Series.ffill on one column. -/
def ffill (xs : List (Option α)) : List (Option α) :=
  ffillAux none xs

/-- pandas Series.bfill on one column: forward fill of the reversed column. -/
def bfill (xs : List (Option α)) : List (Option α) :=
  (ffillAux none xs.reverse).reverse

/-- ffill then bfill, the combination the validator applies. -/
def fillCol (xs : List (Option α)) : List (Option α) :=
  bfill (ffill xs)

/-! ## Configuration (src/config.py)

Only the fields the core components read.  Window sizes and price bounds are
kept abstract; the source defaults are ma_short_window = 20,
ma_long_window = 50, volatility_window = 20, min_stock_price = 0.01,
max_stock_price = 100000, max_missing_percentage = 0.1. -/

structure Config where
  ma_short_window : ℕ
  ma_long_window : ℕ
  volatility_window : ℕ
  min_stock_price : ℚ
  max_stock_price : ℚ
  max_missing_percentage : ℚ
deriving DecidableEq

/-! ## DataValidator (src/validators/data_validator.py)

A price DataFrame is modelled columnar: one optional-cell list per column the
validator can touch, a presence flag per column (pandas distinguishes an
absent column from a column of NaNs), and the row count.  A well-formed frame
has every present column of length nrows and every absent column empty. -/

structure VFrame where
  nrows : ℕ
  hasDate : Bool
  hasSymbol : Bool
  hasOpen : Bool
  hasHigh : Bool
  hasLow : Bool
  hasClose : Bool
  hasAdjClose : Bool
  hasVolume : Bool
  hasDailyReturn : Bool
  hasFlag : Bool
  Date : List Cell
  Symbol : List (Option String)
  Open : List Cell
  High : List Cell
  Low : List Cell
  Close : List Cell
  Adj_Close : List Cell
  Volume : List Cell
  Daily_Return : List Cell
  Extreme_Return_Flag : List (Option Bool)
deriving DecidableEq

/-- One column of a well-formed frame: length nrows when present, empty when
absent. -/
def ColWF (present : Bool) (n : ℕ) (xs : List (Option α)) : Prop :=
  if present then xs.length = n else xs = []

/-- pd.DataFrame(): the frame returned on empty input. -/
def emptyVFrame : VFrame :=
  ⟨0, false, false, false, false, false, false, false, false, false, false,
   [], [], [], [], [], [], [], [], [], []⟩

/-- The stock-price branch test of the validator:
'Symbol' in df.columns and 'Close' in df.columns. -/
def priceShaped (f : VFrame) : Bool :=
  f.hasSymbol && f.hasClose

/-- df.ffill() followed by df.bfill(): per-column forward then backward fill
over the whole frame, in row order, with no regard to the Symbol column.
Absent columns are empty lists, on which fillCol is the identity. -/
def fillFrame (f : VFrame) : VFrame :=
  { f with
    Date := fillCol f.Date
    Symbol := fillCol f.Symbol
    Open := fillCol f.Open
    High := fillCol f.High
    Low := fillCol f.Low
    Close := fillCol f.Close
    Adj_Close := fillCol f.Adj_Close
    Volume := fillCol f.Volume
    Daily_Return := fillCol f.Daily_Return
    Extreme_Return_Flag := fillCol f.Extreme_Return_Flag }

/-- (df[col] < min_price) | (df[col] > max_price) on one cell; a NaN cell
compares false on both sides. -/
def outOfRange (cfg : Config) (x : Cell) : Bool :=
  match x with
  | some v => decide (v < cfg.min_stock_price) || decide (v > cfg.max_stock_price)
  | none => false

/-- The per-price-column repair: when any out-of-range value exists, replace
out-of-range values with NaN, then ffill and bfill that column.  The guard
mirrors the source's if len(invalid_prices) > 0. -/
def rangeFix (cfg : Config) (xs : List Cell) : List Cell :=
  if xs.any (outOfRange cfg) then
    fillCol (xs.map fun x => if outOfRange cfg x then none else x)
  else xs

/-- The price-range validation loop over
['Open', 'High', 'Low', 'Close', 'Adj_Close'], restricted to present
columns. -/
def rangeStage (cfg : Config) (f : VFrame) : VFrame :=
  { f with
    Open := if f.hasOpen then rangeFix cfg f.Open else f.Open
    High := if f.hasHigh then rangeFix cfg f.High else f.High
    Low := if f.hasLow then rangeFix cfg f.Low else f.Low
    Close := if f.hasClose then rangeFix cfg f.Close else f.Close
    Adj_Close := if f.hasAdjClose then rangeFix cfg f.Adj_Close else f.Adj_Close }

/-- The OHLC inconsistency test of one row:
(High < Low) | (High < Open) | (High < Close) | (Low > Open) | (Low > Close),
with NaN comparing false. -/
def inconsRow (o h l c : Cell) : Bool :=
  oLt h l || oLt h o || oLt h c || oLt o l || oLt c l

/-- One step of Python's max fold: keep the current maximum unless the next
argument compares strictly greater (NaN never compares greater). -/
def pyMaxStep (m x : Cell) : Cell :=
  if oLt m x then x else m

/-- Python's max(row Open, row High, row Low, row Close). -/
def pyMax4 (o h l c : Cell) : Cell :=
  pyMaxStep (pyMaxStep (pyMaxStep o h) l) c

/-- One step of Python's min fold. -/
def pyMinStep (m x : Cell) : Cell :=
  if oLt x m then x else m

/-- Python's min(row Open, row High, row Low, row Close). -/
def pyMin4 (o h l c : Cell) : Cell :=
  pyMinStep (pyMinStep (pyMinStep o h) l) c

/-- Row-wise zip of four columns. -/
def zipWith4 (g : α → β → γ → δ → ε) :
    List α → List β → List γ → List δ → List ε
  | a :: as, b :: bs, c :: cs, d :: ds =>
      g a b c d :: zipWith4 g as bs cs ds
  | _, _, _, _ => []

/-- The OHLC consistency repair: for every inconsistent row, High becomes the
row maximum and Low the row minimum of Open, High, Low, Close; Open and Close
are untouched.  The source iterates over a snapshot of the inconsistent rows
and writes back per row index, which is the same per-row map. -/
def ohlcStage (f : VFrame) : VFrame :=
  { f with
    High := zipWith4
      (fun o h l c => if inconsRow o h l c then pyMax4 o h l c else h)
      f.Open f.High f.Low f.Close
    Low := zipWith4
      (fun o h l c => if inconsRow o h l c then pyMin4 o h l c else l)
      f.Open f.High f.Low f.Close }

/-- Volume repair: negative volumes are set to 0 (guarded, as in the source,
by the existence of a negative volume; the guard is semantically inert). -/
def volumeStage (f : VFrame) : VFrame :=
  if f.hasVolume then
    if f.Volume.any (fun v => oLt v (some 0)) then
      { f with Volume := f.Volume.map fun v => if oLt v (some 0) then some 0 else v }
    else f
  else f

/-- The literal 0.5 of the source, written as a rational in normal form so
that kernel evaluation of the comparisons below works; half_eq_div below
identifies it with 1/2. -/
def half : ℚ :=
  ⟨1, 2, by decide, by decide⟩

/-- The literal -0.5 of the source in normal form; negHalf_eq_div below
identifies it with -(1/2). -/
def negHalf : ℚ :=
  ⟨-1, 2, by decide, by decide⟩

/-- (Daily_Return < -0.5) | (Daily_Return > 0.5) on one cell. -/
def extremeB (r : Cell) : Bool :=
  oLt r (some negHalf) || oLt (some half) r

/-- Extreme-return flagging: only when the Daily_Return column exists and at
least one row is extreme, a fresh Extreme_Return_Flag column is written,
False everywhere and True on the extreme rows. -/
def flagStage (f : VFrame) : VFrame :=
  if f.hasDailyReturn then
    if f.Daily_Return.any extremeB then
      { f with
        hasFlag := true
        Extreme_Return_Flag := f.Daily_Return.map fun r => some (extremeB r) }
    else f
  else f

/-- DataValidator.validate on a price-or-unrecognized frame.  Empty input
returns an empty frame.  On a price-shaped frame the stages run in source
order; the OHLC comparisons raise a KeyError (propagated by the bare raise in
the except block) when Open, High or Low is absent.  A frame that is neither
price-shaped nor economic-shaped is passed through unchanged; economic
columns are outside this frame type, so that branch is vacuous here. -/
def validate (cfg : Config) (f : VFrame) : Except String VFrame :=
  if f.nrows = 0 then .ok emptyVFrame
  else if priceShaped f then
    if f.hasHigh && f.hasLow && f.hasOpen then
      .ok (flagStage (volumeStage (ohlcStage (rangeStage cfg (fillFrame f)))))
    else .error "KeyError"
  else .ok f

/-! ## MetricsCalculator (src/transformers/metrics_calculator.py)

The price branch groups the combined table by symbol and runs one block of
computations per symbol on that symbol's rows sorted by date.  The block is
embedded below as symbolMetrics over the symbol's Close series; every claim
about the price branch is per-row and per-series.  Standard-deviation based
columns are represented by their squares, which are rational and have the
same definedness; the EMA/MACD columns are not needed by any claim and are
omitted. -/

/-- Series.diff() tail: each value minus its predecessor. -/
def diffAux (prev : ℚ) : List ℚ → List Cell
  | [] => []
  | x :: xs => some (x - prev) :: diffAux x xs

/-- Series.diff(): NaN at index 0, then successive differences. -/
def diffList : List ℚ → List Cell
  | [] => []
  | x :: xs => none :: diffAux x xs

/-- Series.pct_change() tail: each value divided by its predecessor, minus
one.  Rational division stands in for float division; no claim divides by a
zero close. -/
def pctChangeAux (prev : ℚ) : List ℚ → List Cell
  | [] => []
  | x :: xs => some (x / prev - 1) :: pctChangeAux x xs

/-- Series.pct_change(): NaN at index 0. -/
def pctChange1 : List ℚ → List Cell
  | [] => []
  | x :: xs => none :: pctChangeAux x xs

/-- Series.rolling(window=n).mean(): defined exactly when the trailing window
of n cells is complete (min_periods defaults to the window size) and every
cell in it is valid. -/
def rollingMean (n : ℕ) (xs : List Cell) : List Cell :=
  (List.range xs.length).map fun i =>
    if i + 1 < n then none
    else
      let w := (xs.take (i + 1)).drop (i + 1 - n)
      if w.all Option.isSome then
        some ((w.foldr (fun x acc => x.getD 0 + acc) 0) / (n : ℚ))
      else none

/-- Series.rolling(window=n).std() squared: the sample variance (ddof = 1) of
the trailing window, NaN under the same conditions as the rolling mean and
additionally when n < 2 (a single observation has no sample deviation). -/
def rollingVar (n : ℕ) (xs : List Cell) : List Cell :=
  (List.range xs.length).map fun i =>
    if i + 1 < n ∨ n < 2 then none
    else
      let w := (xs.take (i + 1)).drop (i + 1 - n)
      if w.all Option.isSome then
        let m := (w.foldr (fun x acc => x.getD 0 + acc) 0) / (n : ℚ)
        some ((w.foldr (fun x acc => (x.getD 0 - m) ^ 2 + acc) 0) / ((n : ℚ) - 1))
      else none

/-- gain = delta.where(delta > 0, 0): entries failing the condition,
including the leading NaN of the diff, are replaced by 0, so the gain column
has no missing cells. -/
def gainList (closes : List ℚ) : List Cell :=
  (diffList closes).map fun d =>
    match d with
    | some v => some (if 0 < v then v else 0)
    | none => some 0

/-- loss = -delta.where(delta < 0, 0): magnitudes of the negative deltas. -/
def lossList (closes : List ℚ) : List Cell :=
  (diffList closes).map fun d =>
    match d with
    | some v => some (if v < 0 then -v else 0)
    | none => some 0

/-- rs = avg_gain/avg_loss and RSI = 100 - 100/(1 + rs), with the float
conventions the source relies on: g/0 for nonzero g is a signed infinity and
the RSI expression collapses to exactly 100, while 0/0 is NaN and
propagates.  For a positive avg_loss the expression is exact rational
arithmetic. -/
def rsiFromAvgs (g l : Cell) : Cell :=
  match g, l with
  | some g, some l =>
      if l = 0 then (if g = 0 then none else some 100)
      else some (100 - 100 / (1 + g / l))
  | _, _ => none

/-- A masked scalar assignment df.loc[mask, col] = v on an integer column. -/
def maskedSetInt (xs : List ℤ) (mask : List Bool) (v : ℤ) : List ℤ :=
  List.zipWith (fun x b => if b then v else x) xs mask

/-- MA_Signal: the column starts as all zeros, then 1 is written where
MA_short > MA_long and -1 where MA_short < MA_long; NaN rows match neither
mask and keep 0. -/
def maSignalCol (s l : List Cell) : List ℤ :=
  maskedSetInt
    (maskedSetInt (List.replicate s.length 0)
      (List.zipWith (fun a b => oLt b a) s l) 1)
    (List.zipWith (fun a b => oLt a b) s l) (-1)

/-- The derived columns of one symbol's series. -/
structure SeriesMetrics where
  Daily_Return : List Cell
  MA_Short : List Cell
  MA_Long : List Cell
  MA_Signal : List ℤ
  VolatilitySq : List Cell
  AvgGain : List Cell
  AvgLoss : List Cell
  RSI : List Cell
  BB_Middle : List Cell
  BB_StdSq : List Cell
deriving DecidableEq

/-- The per-symbol body of MetricsCalculator.calculate applied to one
symbol's Close series, already sorted by date.  VolatilitySq is the square of
the source's annualized volatility (std of Daily_Return over
volatility_window, times the square root of 252), BB_StdSq the square of
BB_Std; both have exactly the definedness of the source columns. -/
def symbolMetrics (cfg : Config) (closes : List ℚ) : SeriesMetrics :=
  let dr := pctChange1 closes
  let maS := rollingMean cfg.ma_short_window (closes.map some)
  let maL := rollingMean cfg.ma_long_window (closes.map some)
  let ag := rollingMean 14 (gainList closes)
  let al := rollingMean 14 (lossList closes)
  { Daily_Return := dr
    MA_Short := maS
    MA_Long := maL
    MA_Signal := maSignalCol maS maL
    VolatilitySq := (rollingVar cfg.volatility_window dr).map
      (Option.map fun v => 252 * v)
    AvgGain := ag
    AvgLoss := al
    RSI := List.zipWith rsiFromAvgs ag al
    BB_Middle := rollingMean 20 (closes.map some)
    BB_StdSq := rollingVar 20 (closes.map some) }

/-! ### The economic-indicator branch -/

/-- One row of an economic-indicator table: a date, the five recognized
indicator columns and their derived YoY columns, all optional cells. -/
structure ERow where
  Date : ℚ
  GDP_Growth : Cell
  Unemployment_Rate : Cell
  Inflation_Rate : Cell
  Interest_Rate : Cell
  Consumer_Confidence : Cell
  GDP_Growth_YoY_Change : Cell
  Unemployment_Rate_YoY_Change : Cell
  Inflation_Rate_YoY_Change : Cell
  Interest_Rate_YoY_Change : Cell
  Consumer_Confidence_YoY_Change : Cell
deriving DecidableEq

/-- An economic-indicator table: per-column presence flags plus the rows.
Such a table has no Symbol or Close column, so the price branch of
calculate never fires on it. -/
structure EFrame where
  hasGDP : Bool
  hasUnemployment : Bool
  hasInflation : Bool
  hasInterest : Bool
  hasConfidence : Bool
  hasGDPYoY : Bool
  hasUnemploymentYoY : Bool
  hasInflationYoY : Bool
  hasInterestYoY : Bool
  hasConfidenceYoY : Bool
  rows : List ERow
deriving DecidableEq

/-- The empty DataFrame returned when every input is empty. -/
def emptyEFrame : EFrame :=
  ⟨false, false, false, false, false, false, false, false, false, false, []⟩

/-- The economic branch test of calculate:
any(col in df.columns for col in [GDP_Growth, Unemployment_Rate,
Inflation_Rate]) - note that Interest_Rate and Consumer_Confidence are NOT
part of this test. -/
def econShaped (f : EFrame) : Bool :=
  f.hasGDP || f.hasUnemployment || f.hasInflation

/-- Series.pct_change(periods=k) with the old-pandas default
fill_method='pad': the column is forward filled, then entry i for i >= k is
filled[i]/filled[i-k] - 1 when both cells are valid, NaN otherwise. -/
def pctChangeK (k : ℕ) (xs : List Cell) : List Cell :=
  let ys := ffill xs
  (List.range ys.length).map fun i =>
    if i < k then none
    else
      match ys[i]?, ys[i - k]? with
      | some (some a), some (some b) => some (a / b - 1)
      | _, _ => none

/-- Row order by date, the key of result_df.sort_values('Date'). -/
def dateLE (a b : ERow) : Prop :=
  a.Date ≤ b.Date

instance : DecidableRel dateLE :=
  fun a b => inferInstanceAs (Decidable (a.Date ≤ b.Date))

instance : IsTotal ERow dateLE :=
  ⟨fun a b => le_total a.Date b.Date⟩

instance : IsTrans ERow dateLE :=
  ⟨fun _ _ _ => le_trans⟩

/-- Write a derived column into the rows. -/
def writeCol (set : ERow → Cell → ERow) (rows : List ERow) (vals : List Cell) :
    List ERow :=
  List.zipWith set rows vals

/-- result_df.sort_values('Date'): the rows in ascending date order.  The
insertion sort is a stable model of the source's quicksort; the claims never
involve duplicate dates, where the two could order rows differently. -/
def econSorted (f : EFrame) : List ERow :=
  List.insertionSort dateLE f.rows

/-- First iteration of the YoY loop: the GDP_Growth column, when present. -/
def econYoY1 (f : EFrame) : List ERow :=
  if f.hasGDP then
    writeCol (fun r v => { r with GDP_Growth_YoY_Change := v }) (econSorted f)
      (pctChangeK 12 ((econSorted f).map (·.GDP_Growth)))
  else econSorted f

/-- Second iteration: Unemployment_Rate. -/
def econYoY2 (f : EFrame) : List ERow :=
  if f.hasUnemployment then
    writeCol (fun r v => { r with Unemployment_Rate_YoY_Change := v })
      (econYoY1 f) (pctChangeK 12 ((econYoY1 f).map (·.Unemployment_Rate)))
  else econYoY1 f

/-- Third iteration: Inflation_Rate. -/
def econYoY3 (f : EFrame) : List ERow :=
  if f.hasInflation then
    writeCol (fun r v => { r with Inflation_Rate_YoY_Change := v })
      (econYoY2 f) (pctChangeK 12 ((econYoY2 f).map (·.Inflation_Rate)))
  else econYoY2 f

/-- Fourth iteration: Interest_Rate. -/
def econYoY4 (f : EFrame) : List ERow :=
  if f.hasInterest then
    writeCol (fun r v => { r with Interest_Rate_YoY_Change := v })
      (econYoY3 f) (pctChangeK 12 ((econYoY3 f).map (·.Interest_Rate)))
  else econYoY3 f

/-- Fifth iteration: Consumer_Confidence. -/
def econYoY5 (f : EFrame) : List ERow :=
  if f.hasConfidence then
    writeCol (fun r v => { r with Consumer_Confidence_YoY_Change := v })
      (econYoY4 f) (pctChangeK 12 ((econYoY4 f).map (·.Consumer_Confidence)))
  else econYoY4 f

/-- MetricsCalculator.calculate restricted to one economic-indicator input.
Empty input yields the empty frame.  When at least one of GDP_Growth,
Unemployment_Rate, Inflation_Rate is present, the rows are sorted ascending
by date and a 12-period YoY change column is written for every one of the
five recognized indicator columns present; otherwise the frame passes through
unchanged (the source's unknown-format branch). -/
def calculateEconomic (f : EFrame) : EFrame :=
  if f.rows.isEmpty then emptyEFrame
  else if econShaped f then
    { f with
      rows := econYoY5 f
      hasGDPYoY := f.hasGDPYoY || f.hasGDP
      hasUnemploymentYoY := f.hasUnemploymentYoY || f.hasUnemployment
      hasInflationYoY := f.hasInflationYoY || f.hasInflation
      hasInterestYoY := f.hasInterestYoY || f.hasInterest
      hasConfidenceYoY := f.hasConfidenceYoY || f.hasConfidence }
  else f

/-! ## Statement-side predicates and concrete instances -/

/-- A price within the configured bounds. -/
def inRange (cfg : Config) (v : ℚ) : Prop :=
  cfg.min_stock_price ≤ v ∧ v ≤ cfg.max_stock_price

/-- Every cell of the column is a valid in-range price. -/
def colGood (cfg : Config) (xs : List Cell) : Prop :=
  ∀ y ∈ xs, ∃ v, y = some v ∧ inRange cfg v

/-- No missing cell in the column. -/
def allSomeCol (xs : List (Option α)) : Prop :=
  ∀ y ∈ xs, y.isSome

/-- The specified ma_signal rule: +1 when the short average strictly exceeds
the long one, -1 in the opposite strict case, 0 on ties and whenever either
average is undefined. -/
def maSignalSpec (a b : Cell) : ℤ :=
  match a, b with
  | some x, some y => if y < x then 1 else if x < y then -1 else 0
  | _, _ => 0

/-- The specified shape of a 12-period YoY column derived from a source
column: same length, undefined on the first 12 positions, and equal to
value[i]/value[i-12] - 1 wherever both source cells are valid. -/
def yoyOK (orig out : List Cell) : Prop :=
  out.length = orig.length ∧
  (∀ i, i < 12 → i < orig.length → out[i]? = some none) ∧
  (∀ i a b, 12 ≤ i → orig[i]? = some (some a) → orig[i - 12]? = some (some b) →
    out[i]? = some (some (a / b - 1)))

/-- A price frame that already satisfies every quality invariant: the shape
the validator expects, well-formed column lengths, no missing values, all
prices within bounds, OHLC-consistent rows and non-negative volume. -/
def CleanPrice (cfg : Config) (f : VFrame) : Prop :=
  priceShaped f = true ∧ f.hasOpen = true ∧ f.hasHigh = true ∧ f.hasLow = true ∧
  ColWF f.hasDate f.nrows f.Date ∧ ColWF f.hasSymbol f.nrows f.Symbol ∧
  ColWF f.hasOpen f.nrows f.Open ∧ ColWF f.hasHigh f.nrows f.High ∧
  ColWF f.hasLow f.nrows f.Low ∧ ColWF f.hasClose f.nrows f.Close ∧
  ColWF f.hasAdjClose f.nrows f.Adj_Close ∧
  ColWF f.hasVolume f.nrows f.Volume ∧
  ColWF f.hasDailyReturn f.nrows f.Daily_Return ∧
  ColWF f.hasFlag f.nrows f.Extreme_Return_Flag ∧
  allSomeCol f.Date ∧ allSomeCol f.Symbol ∧ allSomeCol f.Open ∧
  allSomeCol f.High ∧ allSomeCol f.Low ∧ allSomeCol f.Close ∧
  allSomeCol f.Adj_Close ∧ allSomeCol f.Volume ∧
  allSomeCol f.Daily_Return ∧ allSomeCol f.Extreme_Return_Flag ∧
  f.Open.any (outOfRange cfg) = false ∧ f.High.any (outOfRange cfg) = false ∧
  f.Low.any (outOfRange cfg) = false ∧ f.Close.any (outOfRange cfg) = false ∧
  f.Adj_Close.any (outOfRange cfg) = false ∧
  (zipWith4 inconsRow f.Open f.High f.Low f.Close).all (fun b => !b) = true ∧
  f.Volume.any (fun v => oLt v (some 0)) = false

/-- The source's default configuration values. -/
def cfgDefault : Config :=
  ⟨20, 50, 20, 1/100, 100000, 1/10⟩

/-- A small configuration for concrete runs: windows 2/3/2, prices bounded
by [1, 100]. -/
def cfgSmall : Config :=
  ⟨2, 3, 2, 1, 100, 1/10⟩

/-- A one-row price-shaped frame with Symbol and Close but no High column. -/
def frameNoHigh : VFrame :=
  ⟨1, true, true, true, false, true, true, false, false, false, false,
   [some 1], [some "A"], [some 5], [], [some 2], [some 3], [], [], [], []⟩

/-- A one-row price-shaped frame whose Open column is entirely missing. -/
def frameOpenGone : VFrame :=
  ⟨1, true, true, true, true, true, true, false, false, false, false,
   [some 1], [some "A"], [none], [some 7], [some 2], [some 4], [], [], [], []⟩

/-- Two symbols, one row each; the second symbol's Close is missing and the
directly preceding row belongs to the first symbol. -/
def frameTwoSym : VFrame :=
  ⟨2, true, true, true, true, true, true, false, false, false, false,
   [some 1, some 2], [some "A", some "B"], [some 5, some 6], [some 7, some 8],
   [some 2, some 3], [some 4, none], [], [], [], []⟩

/-- Two symbols, one row each; the second symbol's Close of 200 is out of
range under cfgSmall and the directly preceding row belongs to the first
symbol. -/
def frameTwoSymOOR : VFrame :=
  ⟨2, true, true, true, true, true, true, false, false, false, false,
   [some 1, some 2], [some "A", some "B"], [some 5, some 6], [some 7, some 8],
   [some 2, some 3], [some 4, some 200], [], [], [], []⟩

/-- A valid one-row frame with a Daily_Return column and no extreme row. -/
def frameCalm : VFrame :=
  ⟨1, true, true, true, true, true, true, false, false, true, false,
   [some 1], [some "A"], [some 5], [some 7], [some 2], [some 4], [], [],
   [some 0], []⟩

/-- A valid two-row frame with a Daily_Return column whose second row is an
extreme gain. -/
def frameJump : VFrame :=
  ⟨2, true, true, true, true, true, true, false, false, true, false,
   [some 1, some 2], [some "A", some "A"], [some 5, some 10],
   [some 7, some 11], [some 2, some 9], [some 4, some 10], [], [],
   [none, some 1], []⟩

/-- A two-row frame with every quality invariant already satisfied. -/
def frameClean : VFrame :=
  ⟨2, true, true, true, true, true, true, false, true, true, false,
   [some 1, some 2], [some "A", some "A"], [some 5, some 6], [some 7, some 8],
   [some 2, some 3], [some 4, some 5], [], [some 100, some 0],
   [some 0, some 1], []⟩

/-- A frame for the repair scenario: one inconsistent row and one
out-of-range Close, under cfgSmall. -/
def frameRepair : VFrame :=
  ⟨2, true, true, true, true, true, true, false, false, false, false,
   [some 1, some 2], [some "A", some "A"], [some 5, some 6], [some 3, some 8],
   [some 4, some 3], [some 6, some 200], [], [], [], []⟩

/-- An economic row carrying only the Interest_Rate indicator. -/
def eRowInterest (d : ℚ) (x : ℚ) : ERow :=
  ⟨d, none, none, none, some x, none, none, none, none, none, none⟩

/-- An economic row carrying only the GDP_Growth indicator. -/
def eRowGDP (d : ℚ) (x : ℚ) : ERow :=
  ⟨d, some x, none, none, none, none, none, none, none, none, none⟩

/-- Thirteen monthly Interest_Rate observations 100..112; Interest_Rate is
present but none of the three branch-gate columns is. -/
def eFrameInterest : EFrame :=
  ⟨false, false, false, true, false, false, false, false, false, false,
   (List.range 13).map fun n => eRowInterest n (100 + n)⟩

/-- Thirteen monthly GDP_Growth observations 100..112. -/
def eFrameGDP : EFrame :=
  ⟨true, false, false, false, false, false, false, false, false, false,
   [eRowGDP 0 100, eRowGDP 1 101, eRowGDP 2 102, eRowGDP 3 103,
    eRowGDP 4 104, eRowGDP 5 105, eRowGDP 6 106, eRowGDP 7 107,
    eRowGDP 8 108, eRowGDP 9 109, eRowGDP 10 110, eRowGDP 11 111,
    eRowGDP 12 112]⟩

/-- A 14-close series that steps from 1 to 2 and stays flat: one gain, no
losses, so the 14-row RSI window fills with avg_loss = 0 and avg_gain > 0. -/
def stepCloses : List ℚ :=
  1 :: List.replicate 13 2

/-- Decidability of a propositional if-then-else, needed to decide ColWF on
concrete frames. -/
instance decidableIteProp {c a b : Prop} [Decidable c] [da : Decidable a]
    [db : Decidable b] : Decidable (if c then a else b) :=
  if h : c then cast (congrArg Decidable (if_pos h)).symm da
  else cast (congrArg Decidable (if_neg h)).symm db

/-! ## Fill lemmas -/

theorem length_ffillAux (cur : Option α) (xs : List (Option α)) :
    (ffillAux cur xs).length = xs.length := by
  induction xs generalizing cur with
  | nil => rfl
  | cons x xs ih => cases x <;> simp [ffillAux, ih]

theorem length_ffill (xs : List (Option α)) : (ffill xs).length = xs.length := by
  simp [ffill, length_ffillAux]

theorem length_bfill (xs : List (Option α)) : (bfill xs).length = xs.length := by
  simp [bfill, length_ffillAux]

theorem length_fillCol (xs : List (Option α)) : (fillCol xs).length = xs.length := by
  simp [fillCol, length_bfill, length_ffill]

/-- Forward fill never alters a valid cell. -/
theorem ffillAux_get_some {xs : List (Option α)} {i : ℕ} {v : α}
    (h : xs[i]? = some (some v)) (cur : Option α) :
    (ffillAux cur xs)[i]? = some (some v) := by
  induction xs generalizing cur i with
  | nil => simp at h
  | cons x xs ih =>
    cases i with
    | zero => cases x <;> simp_all [ffillAux]
    | succ n => cases x <;> simpa [ffillAux] using ih (by simpa using h) _

theorem ffill_get_some {xs : List (Option α)} {i : ℕ} {v : α}
    (h : xs[i]? = some (some v)) : (ffill xs)[i]? = some (some v) :=
  ffillAux_get_some h none

theorem bfill_get_some {xs : List (Option α)} {i : ℕ} {v : α}
    (h : xs[i]? = some (some v)) : (bfill xs)[i]? = some (some v) := by
  have hi : i < xs.length := by
    by_contra hlt
    rw [List.getElem?_eq_none (by omega)] at h
    exact Option.noConfusion h
  have hj : xs.reverse[xs.length - 1 - i]? = some (some v) := by
    rw [List.getElem?_reverse (by simpa using by omega)]
    simpa [show xs.length - 1 - (xs.length - 1 - i) = i by omega] using h
  have h2 := ffillAux_get_some hj (none : Option α)
  unfold bfill
  rw [List.getElem?_reverse (by rw [length_ffillAux, List.length_reverse]; omega)]
  rw [length_ffillAux, List.length_reverse]
  exact h2

theorem fillCol_get_some {xs : List (Option α)} {i : ℕ} {v : α}
    (h : xs[i]? = some (some v)) : (fillCol xs)[i]? = some (some v) :=
  bfill_get_some (ffill_get_some h)

/-- After a forward fill seeded with a valid value, every cell is valid. -/
theorem ffillAux_some_get (t : List (Option α)) (w : α) (n : ℕ) (hn : n < t.length) :
    ∃ u, (ffillAux (some w) t)[n]? = some (some u) := by
  induction t generalizing w n with
  | nil => simp at hn
  | cons x t ih =>
    cases n with
    | zero => cases x <;> simp [ffillAux]
    | succ n =>
      cases x with
      | none => simpa [ffillAux] using ih w n (by simpa using hn)
      | some u => simpa [ffillAux] using ih u n (by simpa using hn)

/-- Every position at or after a valid cell is valid after forward fill. -/
theorem ffillAux_get_some_of_le {xs : List (Option α)} {k i : ℕ} {v : α}
    (cur : Option α) (hk : xs[k]? = some (some v)) (hki : k ≤ i) (hi : i < xs.length) :
    ∃ w, (ffillAux cur xs)[i]? = some (some w) := by
  induction xs generalizing cur i k with
  | nil => simp at hi
  | cons x t ih =>
    cases k with
    | zero =>
      have hx : x = some v := by simpa using hk
      subst hx
      cases i with
      | zero => exact ⟨v, by simp [ffillAux]⟩
      | succ n =>
        simpa [ffillAux] using ffillAux_some_get t v n (by simpa using hi)
    | succ m =>
      cases i with
      | zero => omega
      | succ n =>
        have hk' : t[m]? = some (some v) := by simpa using hk
        cases x with
        | none => simpa [ffillAux] using ih cur hk' (by omega) (by simpa using hi)
        | some u => simpa [ffillAux] using ih (some u) hk' (by omega) (by simpa using hi)

/-- Every position at or before a valid cell is valid after backward fill. -/
theorem bfill_get_some_of_ge {xs : List (Option α)} {k i : ℕ} {v : α}
    (hk : xs[k]? = some (some v)) (hik : i ≤ k) (_ : i < xs.length) :
    ∃ w, (bfill xs)[i]? = some (some w) := by
  have hklen : k < xs.length := by
    by_contra hlt
    rw [List.getElem?_eq_none (by omega)] at hk
    exact Option.noConfusion hk
  have hrev : xs.reverse[xs.length - 1 - k]? = some (some v) := by
    rw [List.getElem?_reverse (by omega)]
    simpa [show xs.length - 1 - (xs.length - 1 - k) = k by omega] using hk
  obtain ⟨w, hw⟩ := ffillAux_get_some_of_le (none : Option α) hrev
    (i := xs.length - 1 - i) (by omega) (by rw [List.length_reverse]; omega)
  refine ⟨w, ?_⟩
  unfold bfill
  rw [List.getElem?_reverse (by rw [length_ffillAux, List.length_reverse]; omega)]
  rw [length_ffillAux, List.length_reverse]
  exact hw

/-- A column with at least one valid cell has no missing cells after
forward fill followed by backward fill. -/
theorem fillCol_all_some {xs : List (Option α)} {k : ℕ} {v : α}
    (hk : xs[k]? = some (some v)) {i : ℕ} (hi : i < xs.length) :
    ∃ w, (fillCol xs)[i]? = some (some w) := by
  rcases le_or_lt k i with hki | hik
  · obtain ⟨w, hw⟩ := ffillAux_get_some_of_le (none : Option α) hk hki
      (by simpa using hi)
    exact ⟨w, bfill_get_some hw⟩
  · have hk' : (ffill xs)[k]? = some (some v) := ffill_get_some hk
    exact bfill_get_some_of_ge hk' (by omega) (by rw [length_ffill]; omega)

/-- Value provenance: forward fill only produces the missing marker, the seed,
or a value already in the column. -/
theorem mem_ffillAux {y cur : Option α} {xs : List (Option α)}
    (h : y ∈ ffillAux cur xs) : y = none ∨ y = cur ∨ y ∈ xs := by
  induction xs generalizing cur with
  | nil => simp [ffillAux] at h
  | cons x t ih =>
    cases x with
    | none =>
      rcases (by simpa [ffillAux] using h : y = cur ∨ y ∈ ffillAux cur t) with h1 | h1
      · exact Or.inr (Or.inl h1)
      · rcases ih h1 with h2 | h2 | h2
        · exact Or.inl h2
        · exact Or.inr (Or.inl h2)
        · exact Or.inr (Or.inr (List.mem_cons_of_mem _ h2))
    | some u =>
      rcases (by simpa [ffillAux] using h : y = some u ∨ y ∈ ffillAux (some u) t) with h1 | h1
      · exact Or.inr (Or.inr (by simp [h1]))
      · rcases ih h1 with h2 | h2 | h2
        · exact Or.inl h2
        · exact Or.inr (Or.inr (by simp [h2]))
        · exact Or.inr (Or.inr (List.mem_cons_of_mem _ h2))

/-- Value provenance through the full gap fill. -/
theorem mem_fillCol {y : Option α} {xs : List (Option α)}
    (h : y ∈ fillCol xs) : y = none ∨ y ∈ xs := by
  have h1 : y ∈ ffillAux none (ffill xs).reverse := by
    simpa [fillCol, bfill] using h
  rcases mem_ffillAux h1 with h2 | h2 | h2
  · exact Or.inl h2
  · exact Or.inl h2
  · rcases mem_ffillAux (by simpa using h2 : y ∈ ffillAux none xs) with h3 | h3 | h3
    · exact Or.inl h3
    · exact Or.inl h3
    · exact Or.inr h3

/-- Forward fill is the identity on a column without missing cells. -/
theorem ffillAux_of_all_some {xs : List (Option α)}
    (h : ∀ y ∈ xs, y.isSome) (cur : Option α) : ffillAux cur xs = xs := by
  induction xs generalizing cur with
  | nil => rfl
  | cons x t ih =>
    cases x with
    | none => exact absurd (h none (by simp)) (by simp)
    | some u => simp [ffillAux, ih (fun y hy => h y (List.mem_cons_of_mem _ hy))]

/-- The full gap fill is the identity on a column without missing cells. -/
theorem fillCol_of_all_some {xs : List (Option α)}
    (h : ∀ y ∈ xs, y.isSome) : fillCol xs = xs := by
  have h1 : ffill xs = xs := ffillAux_of_all_some h none
  have h2 : bfill xs = xs := by
    unfold bfill
    rw [ffillAux_of_all_some (fun y hy => h y (List.mem_reverse.mp hy)) none,
      List.reverse_reverse]
  rw [fillCol, h1, h2]

/-! ## Index and length helpers -/

theorem getElem?_zipWith_some {g : α → β → γ} {as : List α} {bs : List β}
    {i : ℕ} {a : α} {b : β} (ha : as[i]? = some a) (hb : bs[i]? = some b) :
    (List.zipWith g as bs)[i]? = some (g a b) := by
  induction as generalizing bs i with
  | nil => simp at ha
  | cons x as ih =>
    cases bs with
    | nil => simp at hb
    | cons y bs =>
      cases i with
      | zero => simp_all
      | succ n => simpa using ih (by simpa using ha) (by simpa using hb)

theorem length_zipWith4 (g : α → β → γ → δ → ε) (as : List α) (bs : List β)
    (cs : List γ) (ds : List δ) :
    (zipWith4 g as bs cs ds).length =
      min (min (min as.length bs.length) cs.length) ds.length := by
  induction as generalizing bs cs ds with
  | nil => simp [zipWith4]
  | cons a as ih =>
    cases bs with
    | nil => simp [zipWith4]
    | cons b bs =>
      cases cs with
      | nil => simp [zipWith4]
      | cons c cs =>
        cases ds with
        | nil => simp [zipWith4]
        | cons d ds => simp [zipWith4, ih]; omega

theorem getElem?_zipWith4_some {g : α → β → γ → δ → ε} {as : List α}
    {bs : List β} {cs : List γ} {ds : List δ} {i : ℕ} {a : α} {b : β} {c : γ}
    {d : δ} (ha : as[i]? = some a) (hb : bs[i]? = some b)
    (hc : cs[i]? = some c) (hd : ds[i]? = some d) :
    (zipWith4 g as bs cs ds)[i]? = some (g a b c d) := by
  induction as generalizing bs cs ds i with
  | nil => simp at ha
  | cons a' as ih =>
    cases bs with
    | nil => simp at hb
    | cons b' bs =>
      cases cs with
      | nil => simp at hc
      | cons c' cs =>
        cases ds with
        | nil => simp at hd
        | cons d' ds =>
          cases i with
          | zero => simp_all [zipWith4]
          | succ n =>
            simpa [zipWith4] using
              ih (by simpa using ha) (by simpa using hb) (by simpa using hc)
                (by simpa using hd)

theorem mem_zipWith4 {g : α → β → γ → δ → ε} {as : List α} {bs : List β}
    {cs : List γ} {ds : List δ} {y : ε} (h : y ∈ zipWith4 g as bs cs ds) :
    ∃ a b c d, a ∈ as ∧ b ∈ bs ∧ c ∈ cs ∧ d ∈ ds ∧ y = g a b c d := by
  induction as generalizing bs cs ds with
  | nil => simp [zipWith4] at h
  | cons a' as ih =>
    cases bs with
    | nil => simp [zipWith4] at h
    | cons b' bs =>
      cases cs with
      | nil => simp [zipWith4] at h
      | cons c' cs =>
        cases ds with
        | nil => simp [zipWith4] at h
        | cons d' ds =>
          rcases (by simpa [zipWith4] using h :
              y = g a' b' c' d' ∨ y ∈ zipWith4 g as bs cs ds) with h1 | h1
          · exact ⟨a', b', c', d', by simp, by simp, by simp, by simp, h1⟩
          · obtain ⟨a, b, c, d, h2, h3, h4, h5, h6⟩ := ih h1
            exact ⟨a, b, c, d, List.mem_cons_of_mem _ h2,
              List.mem_cons_of_mem _ h3, List.mem_cons_of_mem _ h4,
              List.mem_cons_of_mem _ h5, h6⟩

theorem getElem?_range_map {g : ℕ → α} {n i : ℕ} (hi : i < n) :
    ((List.range n).map g)[i]? = some (g i) := by
  rw [List.getElem?_map, List.getElem?_range hi]
  rfl

theorem length_range_map (g : ℕ → α) (n : ℕ) :
    ((List.range n).map g).length = n := by
  simp

/-! ## Stage bookkeeping lemmas -/

theorem fillFrame_fields (f : VFrame) :
    (fillFrame f).nrows = f.nrows ∧ (fillFrame f).hasDate = f.hasDate ∧
    (fillFrame f).hasSymbol = f.hasSymbol ∧ (fillFrame f).hasOpen = f.hasOpen ∧
    (fillFrame f).hasHigh = f.hasHigh ∧ (fillFrame f).hasLow = f.hasLow ∧
    (fillFrame f).hasClose = f.hasClose ∧
    (fillFrame f).hasAdjClose = f.hasAdjClose ∧
    (fillFrame f).hasVolume = f.hasVolume ∧
    (fillFrame f).hasDailyReturn = f.hasDailyReturn ∧
    (fillFrame f).hasFlag = f.hasFlag := by
  simp [fillFrame]

theorem rangeStage_fields (cfg : Config) (f : VFrame) :
    (rangeStage cfg f).nrows = f.nrows ∧
    (rangeStage cfg f).hasDate = f.hasDate ∧
    (rangeStage cfg f).hasSymbol = f.hasSymbol ∧
    (rangeStage cfg f).hasOpen = f.hasOpen ∧
    (rangeStage cfg f).hasHigh = f.hasHigh ∧
    (rangeStage cfg f).hasLow = f.hasLow ∧
    (rangeStage cfg f).hasClose = f.hasClose ∧
    (rangeStage cfg f).hasAdjClose = f.hasAdjClose ∧
    (rangeStage cfg f).hasVolume = f.hasVolume ∧
    (rangeStage cfg f).hasDailyReturn = f.hasDailyReturn ∧
    (rangeStage cfg f).hasFlag = f.hasFlag ∧
    (rangeStage cfg f).Date = f.Date ∧
    (rangeStage cfg f).Symbol = f.Symbol ∧
    (rangeStage cfg f).Volume = f.Volume ∧
    (rangeStage cfg f).Daily_Return = f.Daily_Return ∧
    (rangeStage cfg f).Extreme_Return_Flag = f.Extreme_Return_Flag := by
  simp [rangeStage]

theorem ohlcStage_fields (f : VFrame) :
    (ohlcStage f).nrows = f.nrows ∧ (ohlcStage f).hasDate = f.hasDate ∧
    (ohlcStage f).hasSymbol = f.hasSymbol ∧
    (ohlcStage f).hasOpen = f.hasOpen ∧ (ohlcStage f).hasHigh = f.hasHigh ∧
    (ohlcStage f).hasLow = f.hasLow ∧ (ohlcStage f).hasClose = f.hasClose ∧
    (ohlcStage f).hasAdjClose = f.hasAdjClose ∧
    (ohlcStage f).hasVolume = f.hasVolume ∧
    (ohlcStage f).hasDailyReturn = f.hasDailyReturn ∧
    (ohlcStage f).hasFlag = f.hasFlag ∧
    (ohlcStage f).Date = f.Date ∧ (ohlcStage f).Symbol = f.Symbol ∧
    (ohlcStage f).Open = f.Open ∧ (ohlcStage f).Close = f.Close ∧
    (ohlcStage f).Adj_Close = f.Adj_Close ∧
    (ohlcStage f).Volume = f.Volume ∧
    (ohlcStage f).Daily_Return = f.Daily_Return ∧
    (ohlcStage f).Extreme_Return_Flag = f.Extreme_Return_Flag := by
  simp [ohlcStage]

theorem volumeStage_fields (f : VFrame) :
    (volumeStage f).nrows = f.nrows ∧ (volumeStage f).hasDate = f.hasDate ∧
    (volumeStage f).hasSymbol = f.hasSymbol ∧
    (volumeStage f).hasOpen = f.hasOpen ∧
    (volumeStage f).hasHigh = f.hasHigh ∧
    (volumeStage f).hasLow = f.hasLow ∧
    (volumeStage f).hasClose = f.hasClose ∧
    (volumeStage f).hasAdjClose = f.hasAdjClose ∧
    (volumeStage f).hasVolume = f.hasVolume ∧
    (volumeStage f).hasDailyReturn = f.hasDailyReturn ∧
    (volumeStage f).hasFlag = f.hasFlag ∧
    (volumeStage f).Date = f.Date ∧ (volumeStage f).Symbol = f.Symbol ∧
    (volumeStage f).Open = f.Open ∧ (volumeStage f).High = f.High ∧
    (volumeStage f).Low = f.Low ∧ (volumeStage f).Close = f.Close ∧
    (volumeStage f).Adj_Close = f.Adj_Close ∧
    (volumeStage f).Daily_Return = f.Daily_Return ∧
    (volumeStage f).Extreme_Return_Flag = f.Extreme_Return_Flag := by
  unfold volumeStage
  split
  · split <;> simp
  · simp

theorem flagStage_fields (f : VFrame) :
    (flagStage f).nrows = f.nrows ∧ (flagStage f).hasDate = f.hasDate ∧
    (flagStage f).hasSymbol = f.hasSymbol ∧
    (flagStage f).hasOpen = f.hasOpen ∧ (flagStage f).hasHigh = f.hasHigh ∧
    (flagStage f).hasLow = f.hasLow ∧ (flagStage f).hasClose = f.hasClose ∧
    (flagStage f).hasAdjClose = f.hasAdjClose ∧
    (flagStage f).hasVolume = f.hasVolume ∧
    (flagStage f).hasDailyReturn = f.hasDailyReturn ∧
    (flagStage f).Date = f.Date ∧ (flagStage f).Symbol = f.Symbol ∧
    (flagStage f).Open = f.Open ∧ (flagStage f).High = f.High ∧
    (flagStage f).Low = f.Low ∧ (flagStage f).Close = f.Close ∧
    (flagStage f).Adj_Close = f.Adj_Close ∧
    (flagStage f).Volume = f.Volume ∧
    (flagStage f).Daily_Return = f.Daily_Return := by
  unfold flagStage
  split
  · split <;> simp
  · simp

/-! ## Small value lemmas -/

theorem pyMaxStep_some (a b : ℚ) :
    pyMaxStep (some a) (some b) = some (max a b) := by
  by_cases hab : a < b
  · simp [pyMaxStep, oLt, hab, max_eq_right hab.le]
  · simp [pyMaxStep, oLt, hab, max_eq_left (not_lt.mp hab)]

theorem pyMinStep_some (a b : ℚ) :
    pyMinStep (some a) (some b) = some (min a b) := by
  by_cases hba : b < a
  · simp [pyMinStep, oLt, hba, min_eq_right hba.le]
  · simp [pyMinStep, oLt, hba, min_eq_left (not_lt.mp hba)]

theorem pyMax4_some (o h l c : ℚ) :
    pyMax4 (some o) (some h) (some l) (some c) =
      some (max (max (max o h) l) c) := by
  rw [pyMax4, pyMaxStep_some, pyMaxStep_some, pyMaxStep_some]

theorem pyMin4_some (o h l c : ℚ) :
    pyMin4 (some o) (some h) (some l) (some c) =
      some (min (min (min o h) l) c) := by
  rw [pyMin4, pyMinStep_some, pyMinStep_some, pyMinStep_some]

/-! ## Concrete metric evaluation lemmas -/

theorem diffAux_const (c : ℚ) (n : ℕ) :
    diffAux c (List.replicate n c) = List.replicate n (some 0) := by
  induction n with
  | zero => rfl
  | succ m ih => simp [List.replicate_succ, diffAux, sub_self, ih]

theorem lossList_const (c : ℚ) (n : ℕ) :
    lossList (List.replicate (n + 1) c) = List.replicate (n + 1) (some 0) := by
  simp [lossList, diffList, List.replicate_succ, diffAux_const,
    List.map_replicate]

theorem gainList_const (c : ℚ) (n : ℕ) :
    gainList (List.replicate (n + 1) c) = List.replicate (n + 1) (some 0) := by
  simp [gainList, diffList, List.replicate_succ, diffAux_const,
    List.map_replicate]

theorem foldr_add_replicate_zero (n : ℕ) :
    List.foldr (fun (x : Cell) acc => x.getD 0 + acc) 0
      (List.replicate n (some 0)) = 0 := by
  induction n with
  | zero => rfl
  | succ m ih => simp [List.replicate_succ, ih]

theorem rollingMean_replicate_zero_last :
    (rollingMean 14 (List.replicate 14 (some (0 : ℚ))))[13]? = some (some 0) := by
  rw [rollingMean, getElem?_range_map (by simp)]
  simp [foldr_add_replicate_zero]

/-! ## Rolling-window lemmas -/

theorem length_rollingMean (n : ℕ) (xs : List Cell) :
    (rollingMean n xs).length = xs.length :=
  length_range_map _ _

theorem length_rollingVar (n : ℕ) (xs : List Cell) :
    (rollingVar n xs).length = xs.length :=
  length_range_map _ _

theorem length_pctChangeAux (prev : ℚ) (xs : List ℚ) :
    (pctChangeAux prev xs).length = xs.length := by
  induction xs generalizing prev with
  | nil => rfl
  | cons x t ih => simp [pctChangeAux, ih]

theorem length_pctChange1 (xs : List ℚ) :
    (pctChange1 xs).length = xs.length := by
  cases xs with
  | nil => rfl
  | cons x t => simp [pctChange1, length_pctChangeAux]

theorem pctChangeAux_get (prev : ℚ) (xs : List ℚ) (j : ℕ) (hj : j < xs.length) :
    ∃ v, (pctChangeAux prev xs)[j]? = some (some v) := by
  induction xs generalizing prev j with
  | nil => simp at hj
  | cons x t ih =>
    cases j with
    | zero => exact ⟨x / prev - 1, by simp [pctChangeAux]⟩
    | succ m => simpa [pctChangeAux] using ih x m (by simpa using hj)

theorem pctChange1_get_zero {xs : List ℚ} (h : xs ≠ []) :
    (pctChange1 xs)[0]? = some none := by
  cases xs with
  | nil => exact absurd rfl h
  | cons x t => simp [pctChange1]

theorem pctChange1_get_succ {xs : List ℚ} {j : ℕ} (hj : j + 1 < xs.length) :
    ∃ v, (pctChange1 xs)[j + 1]? = some (some v) := by
  cases xs with
  | nil => simp at hj
  | cons x t =>
    simpa [pctChange1] using pctChangeAux_get x t j (by simpa using hj)

theorem window_all_some {xs : List Cell} (h : ∀ y ∈ xs, y.isSome) (m k : ℕ) :
    ((xs.take m).drop k).all Option.isSome = true := by
  rw [List.all_eq_true]
  intro y hy
  exact h y (List.mem_of_mem_take (List.mem_of_mem_drop hy))

/-- The rolling mean of a gap-free column is defined exactly once the window
is full. -/
theorem rollingMean_isSome {xs : List Cell} (hxs : ∀ y ∈ xs, y.isSome)
    (n : ℕ) {i : ℕ} (hi : i < xs.length) :
    ((rollingMean n xs)[i]?.getD none).isSome = decide (n ≤ i + 1) := by
  rw [rollingMean, getElem?_range_map hi]
  by_cases hn : i + 1 < n
  · have hgt : ¬ n ≤ i + 1 := by omega
    simp [hn, hgt]
  · have hle : n ≤ i + 1 := by omega
    simp [hn, window_all_some hxs, hle]

/-- A window of the Daily_Return column that avoids the leading undefined
entry is gap-free. -/
theorem pctChange1_window_all_some (closes : List ℚ) {i n : ℕ}
    (hn1 : 1 ≤ i + 1 - n) (hi : i < closes.length) :
    (((pctChange1 closes).take (i + 1)).drop (i + 1 - n)).all
      Option.isSome = true := by
  rw [List.all_eq_true]
  intro y hy
  obtain ⟨t, ht⟩ := List.mem_iff_getElem?.mp hy
  have htlen : t < (((pctChange1 closes).take (i + 1)).drop (i + 1 - n)).length :=
    (List.getElem?_eq_some.mp ht).1
  rw [List.length_drop, List.length_take, length_pctChange1] at htlen
  rw [List.getElem?_drop, List.getElem?_take] at ht
  have hlt : i + 1 - n + t < i + 1 := by omega
  rw [if_pos hlt] at ht
  have hidx : i + 1 - n + t = (i + 1 - n + t - 1) + 1 := by omega
  rw [hidx] at ht
  obtain ⟨v, hv⟩ := pctChange1_get_succ
    (j := i + 1 - n + t - 1) (show i + 1 - n + t - 1 + 1 < closes.length by omega)
  rw [hv] at ht
  injection ht with h2
  rw [← h2]
  rfl

/-- Definedness of the rolling variance of the Daily_Return column: the
window must be full, must not reach back to the undefined first return, and
must hold at least two observations. -/
theorem rollingVar_pctChange_isSome (closes : List ℚ) (n : ℕ) {i : ℕ}
    (hi : i < closes.length) :
    ((rollingVar n (pctChange1 closes))[i]?.getD none).isSome =
      (decide (n ≤ i) && decide (2 ≤ n)) := by
  have hlen : (pctChange1 closes).length = closes.length :=
    length_pctChange1 closes
  rw [rollingVar, getElem?_range_map (by rw [hlen]; exact hi)]
  by_cases hcond : i + 1 < n ∨ n < 2
  · rcases hcond with hc | hc
    · have h1 : ¬ n ≤ i := by omega
      simp [hc, h1]
    · have h2 : ¬ 2 ≤ n := by omega
      simp [hc, h2]
  · push_neg at hcond
    have hn2 : 2 ≤ n := by omega
    by_cases hni : n ≤ i
    · have hall := pctChange1_window_all_some closes
        (i := i) (n := n) (by omega) hi
      simp [show ¬ (i + 1 < n ∨ n < 2) by omega, hall, hni, hn2]
    · have hn : n = i + 1 := by omega
      have hne : closes ≠ [] := by
        cases closes with
        | nil => simp at hi
        | cons a t => simp
      have hwin0 : (((pctChange1 closes).take (i + 1)).drop (i + 1 - n))[0]? =
          some none := by
        rw [show i + 1 - n = 0 by omega, List.drop_zero, List.getElem?_take]
        simp [pctChange1_get_zero hne]
      have hnall : ¬ ((((pctChange1 closes).take (i + 1)).drop
          (i + 1 - n)).all Option.isSome = true) := by
        intro hall
        rw [List.all_eq_true] at hall
        have hmem : (none : Cell) ∈
            ((pctChange1 closes).take (i + 1)).drop (i + 1 - n) := by
          rw [List.mem_iff_getElem?]
          exact ⟨0, hwin0⟩
        simpa using hall none hmem
      simp [show ¬ (i + 1 < n ∨ n < 2) by omega, hnall, hni]

/-! ## Claim theorems -/

/-- C10: validate on a table it recognizes as price-shaped (Symbol and Close
present) but lacking the High column raises an error and returns no table,
rather than passing the table through or partially repairing it. -/
theorem C10_missing_ohlc_column_errors :
    priceShaped frameNoHigh = true ∧ frameNoHigh.hasHigh = false ∧
    validate cfgSmall frameNoHigh = .error "KeyError" := by
  refine ⟨rfl, rfl, ?_⟩
  rfl

/-- C1 counterexample: on a price-shaped frame with Open, High, Low present
whose Open column contains no valid value, validate returns a frame whose
Open cell is still missing, so the returned row has no Open price inside
[min_price, max_price] and fails Low ≤ Open ≤ High; the claim's universal
invariant is false as stated. -/
theorem C1_counterexample :
    priceShaped frameOpenGone = true ∧ frameOpenGone.hasOpen = true ∧
    frameOpenGone.hasHigh = true ∧ frameOpenGone.hasLow = true ∧
    (validate cfgSmall frameOpenGone).map (·.Open) = .ok [none] := by
  refine ⟨rfl, rfl, rfl, rfl, ?_⟩
  rfl

/-- C4 counterexample: the same degenerate frame leaves a null in the key
column Open after validation, so the no-null guarantee is false as stated. -/
theorem C4_counterexample :
    priceShaped frameOpenGone = true ∧
    (validate cfgSmall frameOpenGone).map (fun g => g.Open.all Option.isSome) =
      .ok false := by
  refine ⟨rfl, ?_⟩
  rfl

/-- C3 counterexample: a price-shaped frame with a Daily_Return column but no
extreme row comes back from validate without any Extreme_Return_Flag column,
so the column is not added whenever daily_return is present. -/
theorem C3_counterexample :
    frameCalm.hasDailyReturn = true ∧
    (validate cfgSmall frameCalm).map (·.hasFlag) = .ok false := by
  refine ⟨rfl, ?_⟩
  rfl

/-- C2 counterexample: a 13-row table whose only indicator column is
Interest_Rate (a recognized indicator) is passed through calculate unchanged:
no sort, no Interest_Rate_YoY_Change column, because the branch test only
checks GDP_Growth, Unemployment_Rate and Inflation_Rate. -/
theorem C2_counterexample :
    eFrameInterest.hasInterest = true ∧ eFrameInterest.hasInterestYoY = false ∧
    calculateEconomic eFrameInterest = eFrameInterest := by
  refine ⟨rfl, rfl, ?_⟩
  rfl

/-- C6 counterexample: with volatility_window = 2 and a 2-row series, the
window of 2 rows has accumulated at the second row, yet Volatility is still
undefined there, because the first Daily_Return in the window is itself
undefined; the claim's "defined from the N-th row onward" fails for
volatility. -/
theorem C6_counterexample :
    cfgSmall.volatility_window = 2 ∧
    ((symbolMetrics cfgSmall [1, 2]).VolatilitySq)[1]? = some none := by
  refine ⟨rfl, ?_⟩
  rfl

/-- C8 counterexample: on 14 equal closes the RSI window is filled at row 13
and avg_loss is exactly 0, but avg_gain is also 0, rs is 0/0 = NaN and the
computed RSI is undefined rather than 100. -/
theorem C8_counterexample :
    ((symbolMetrics cfgDefault (List.replicate 14 1)).AvgLoss)[13]? =
      some (some 0) ∧
    ((symbolMetrics cfgDefault (List.replicate 14 1)).RSI)[13]? = some none := by
  have hl : (rollingMean 14 (lossList (List.replicate 14 1)))[13]? =
      some (some (0 : ℚ)) := by
    rw [show (14 : ℕ) = 13 + 1 from rfl, lossList_const]
    exact rollingMean_replicate_zero_last
  have hg : (rollingMean 14 (gainList (List.replicate 14 1)))[13]? =
      some (some (0 : ℚ)) := by
    rw [show (14 : ℕ) = 13 + 1 from rfl, gainList_const]
    exact rollingMean_replicate_zero_last
  refine ⟨hl, ?_⟩
  show (List.zipWith rsiFromAvgs (rollingMean 14 (gainList (List.replicate 14 1)))
    (rollingMean 14 (lossList (List.replicate 14 1))))[13]? = some none
  rw [getElem?_zipWith_some hg hl]
  simp [rsiFromAvgs]

/-- Definedness of the rolling sample variance of a gap-free column. -/
theorem rollingVar_isSome {xs : List Cell} (hxs : ∀ y ∈ xs, y.isSome)
    (n : ℕ) {i : ℕ} (hi : i < xs.length) :
    ((rollingVar n xs)[i]?.getD none).isSome =
      (decide (n ≤ i + 1) && decide (2 ≤ n)) := by
  rw [rollingVar, getElem?_range_map hi]
  by_cases hcond : i + 1 < n ∨ n < 2
  · rcases hcond with hc | hc
    · have h1 : ¬ n ≤ i + 1 := by omega
      simp [hc, h1]
    · have h2 : ¬ 2 ≤ n := by omega
      simp [hc, h2]
  · push_neg at hcond
    have h1 : n ≤ i + 1 := by omega
    have h2 : 2 ≤ n := by omega
    simp [show ¬ (i + 1 < n ∨ n < 2) by omega, window_all_some hxs, h1, h2]

/-- Mapping a function over the cell values preserves definedness. -/
theorem getD_map_isSome (g : ℚ → ℚ) (xs : List Cell) (i : ℕ) :
    (((xs.map (Option.map g))[i]?).getD none).isSome =
      ((xs[i]?).getD none).isSome := by
  rw [List.getElem?_map]
  cases h : xs[i]? with
  | none => simp
  | some c => cases c <;> simp

/-- Every cell of a column built by mapping some is valid. -/
theorem map_some_all_isSome (closes : List ℚ) :
    ∀ y ∈ closes.map some, y.isSome := by
  intro y hy
  obtain ⟨v, _, rfl⟩ := List.mem_map.mp hy
  rfl

/-- C6: amended. For every per-symbol price series, each close-based
trailing-N rolling metric (ma_short, ma_long, the Bollinger middle band and
deviation) is undefined for the first N-1 rows and defined from the N-th row
onward - in particular it is undefined on every row of a series shorter than
N.  Volatility, computed over daily returns whose first entry is undefined,
is additionally undefined at the N-th row: it is defined exactly from the
(N+1)-th row on (and requires a window of at least 2). -/
theorem C6_amended_warmup (cfg : Config) (closes : List ℚ) (i : ℕ)
    (hi : i < closes.length) :
    ((symbolMetrics cfg closes).MA_Short[i]?.getD none).isSome =
      decide (cfg.ma_short_window ≤ i + 1) ∧
    ((symbolMetrics cfg closes).MA_Long[i]?.getD none).isSome =
      decide (cfg.ma_long_window ≤ i + 1) ∧
    ((symbolMetrics cfg closes).BB_Middle[i]?.getD none).isSome =
      decide (20 ≤ i + 1) ∧
    ((symbolMetrics cfg closes).BB_StdSq[i]?.getD none).isSome =
      decide (20 ≤ i + 1) ∧
    ((symbolMetrics cfg closes).VolatilitySq[i]?.getD none).isSome =
      (decide (cfg.volatility_window ≤ i) &&
        decide (2 ≤ cfg.volatility_window)) := by
  have hmem := map_some_all_isSome closes
  have hlen : i < (closes.map some).length := by simpa using hi
  refine ⟨rollingMean_isSome hmem _ hlen, rollingMean_isSome hmem _ hlen,
    rollingMean_isSome hmem _ hlen, ?_, ?_⟩
  · have h := rollingVar_isSome hmem 20 hlen
    simpa using h
  · show (((rollingVar cfg.volatility_window (pctChange1 closes)).map
      (Option.map fun v => 252 * v))[i]?.getD none).isSome = _
    rw [getD_map_isSome]
    exact rollingVar_pctChange_isSome closes cfg.volatility_window hi

/-- C6 witness: with windows 2/3/2 on the three-row series [1, 2, 3], at row
index 2 the short and long moving averages are defined, the 20-row Bollinger
columns are not, and the volatility is defined since its window [1, 2] of
returns avoids the first row. -/
theorem C6_warmup_witness :
    ((symbolMetrics cfgSmall [1, 2, 3]).MA_Short[2]?.getD none).isSome =
      decide (cfgSmall.ma_short_window ≤ 2 + 1) ∧
    ((symbolMetrics cfgSmall [1, 2, 3]).MA_Long[2]?.getD none).isSome =
      decide (cfgSmall.ma_long_window ≤ 2 + 1) ∧
    ((symbolMetrics cfgSmall [1, 2, 3]).BB_Middle[2]?.getD none).isSome =
      decide (20 ≤ 2 + 1) ∧
    ((symbolMetrics cfgSmall [1, 2, 3]).BB_StdSq[2]?.getD none).isSome =
      decide (20 ≤ 2 + 1) ∧
    ((symbolMetrics cfgSmall [1, 2, 3]).VolatilitySq[2]?.getD none).isSome =
      (decide (cfgSmall.volatility_window ≤ 2) &&
        decide (2 ≤ cfgSmall.volatility_window)) :=
  C6_amended_warmup cfgSmall [1, 2, 3] 2 (by norm_num)

/-- C7: for every row of the per-symbol metrics, MA_Signal is +1 when
MA_short strictly exceeds MA_long, -1 in the opposite strict case, and 0 on
ties or when either moving average is undefined; and on the aligned columns
ma_short = [1,2,3], ma_long = [3,2,1] the written signal column is
[-1, 0, 1]. -/
theorem C7_ma_signal_rule (cfg : Config) (closes : List ℚ) (i : ℕ) (a b : Cell)
    (hS : (symbolMetrics cfg closes).MA_Short[i]? = some a)
    (hL : (symbolMetrics cfg closes).MA_Long[i]? = some b) :
    (symbolMetrics cfg closes).MA_Signal[i]? = some (maSignalSpec a b) ∧
    maSignalCol [some 1, some 2, some 3] [some 3, some 2, some 1] =
      [-1, 0, 1] := by
  constructor
  · have hS' : (rollingMean cfg.ma_short_window (closes.map some))[i]? =
        some a := hS
    have hL' : (rollingMean cfg.ma_long_window (closes.map some))[i]? =
        some b := hL
    have hilen : i <
        (rollingMean cfg.ma_short_window (closes.map some)).length :=
      (List.getElem?_eq_some.mp hS').1
    show (maSignalCol (rollingMean cfg.ma_short_window (closes.map some))
      (rollingMean cfg.ma_long_window (closes.map some)))[i]? =
        some (maSignalSpec a b)
    have hrep : (List.replicate
        (rollingMean cfg.ma_short_window (closes.map some)).length
        (0 : ℤ))[i]? = some 0 := by
      rw [List.getElem?_replicate, if_pos hilen]
    have h1 := getElem?_zipWith_some
      (g := fun (x : ℤ) (c : Bool) => if c then (1 : ℤ) else x) hrep
      (getElem?_zipWith_some (g := fun a b => oLt b a) hS' hL')
    have h2 := getElem?_zipWith_some
      (g := fun (x : ℤ) (c : Bool) => if c then (-1 : ℤ) else x) h1
      (getElem?_zipWith_some (g := fun a b => oLt a b) hS' hL')
    rw [maSignalCol, maskedSetInt, maskedSetInt, h2]
    congr 1
    cases a with
    | none => cases b <;> simp [oLt, maSignalSpec]
    | some x =>
      cases b with
      | none => simp [oLt, maSignalSpec]
      | some y =>
        rcases lt_trichotomy x y with h | h | h
        · simp [oLt, maSignalSpec, h, lt_asymm h]
        · subst h
          simp [oLt, maSignalSpec, lt_irrefl]
        · simp [oLt, maSignalSpec, h, lt_asymm h]
  · decide

/-- C7 witness: on the series [1, 2, 3] with windows 2 and 3, at row 2 the
short average 5/2 strictly exceeds the long average 2 and the signal is 1. -/
theorem C7_ma_signal_witness :
    (symbolMetrics cfgSmall [1, 2, 3]).MA_Signal[2]? = some 1 ∧
    maSignalCol [some 1, some 2, some 3] [some 3, some 2, some 1] =
      [-1, 0, 1] := by
  have hS : (symbolMetrics cfgSmall [1, 2, 3]).MA_Short[2]? =
      some (some (5 / 2)) := by
    show (rollingMean 2 ([(1 : ℚ), 2, 3].map some))[2]? = some (some (5 / 2))
    rw [rollingMean, getElem?_range_map (by simp)]
    norm_num
  have hL : (symbolMetrics cfgSmall [1, 2, 3]).MA_Long[2]? =
      some (some 2) := by
    show (rollingMean 3 ([(1 : ℚ), 2, 3].map some))[2]? = some (some 2)
    rw [rollingMean, getElem?_range_map (by simp)]
    norm_num
  have h := C7_ma_signal_rule cfgSmall [1, 2, 3] 2 (some (5 / 2)) (some 2) hS hL
  refine ⟨?_, h.2⟩
  rw [h.1]
  norm_num [maSignalSpec]

/-- C8: amended. On any row where the RSI window is filled, avg_loss is 0 and
avg_gain is nonzero, the computed RSI is exactly 100 (no division error);
when avg_gain is 0 as well, rs is the float indeterminate 0/0 and the RSI is
undefined rather than 100. -/
theorem C8_amended_rsi (cfg : Config) (closes : List ℚ) (i : ℕ) (g : ℚ)
    (hl : (symbolMetrics cfg closes).AvgLoss[i]? = some (some 0))
    (hg : (symbolMetrics cfg closes).AvgGain[i]? = some (some g))
    (hgne : g ≠ 0) :
    (symbolMetrics cfg closes).RSI[i]? = some (some 100) := by
  have hl' : (rollingMean 14 (lossList closes))[i]? = some (some 0) := hl
  have hg' : (rollingMean 14 (gainList closes))[i]? = some (some g) := hg
  show (List.zipWith rsiFromAvgs (rollingMean 14 (gainList closes))
    (rollingMean 14 (lossList closes)))[i]? = some (some 100)
  rw [getElem?_zipWith_some hg' hl']
  simp [rsiFromAvgs, hgne]

/-- C8 witness: on the step series the RSI window fills at row 13 with
avg_loss 0 and avg_gain 1/14, and the RSI is 100. -/
theorem C8_rsi_witness :
    (symbolMetrics cfgDefault stepCloses).AvgLoss[13]? = some (some 0) ∧
    (symbolMetrics cfgDefault stepCloses).AvgGain[13]? = some (some (1 / 14)) ∧
    (symbolMetrics cfgDefault stepCloses).RSI[13]? = some (some 100) := by
  have hdiff : diffList stepCloses =
      none :: some 1 :: List.replicate 12 (some 0) := by
    rw [stepCloses, show List.replicate 13 (2 : ℚ) = 2 :: List.replicate 12 2
      from rfl]
    simp only [diffList, diffAux, diffAux_const]
    norm_num
    rfl
  have hloss : lossList stepCloses = List.replicate 14 (some 0) := by
    rw [lossList, hdiff,
      show List.replicate 14 (some (0 : ℚ)) =
        some 0 :: some 0 :: List.replicate 12 (some 0) from rfl]
    simp only [List.map_cons, List.map_replicate]
    norm_num
  have hgain : gainList stepCloses =
      some 0 :: some 1 :: List.replicate 12 (some 0) := by
    rw [gainList, hdiff]
    norm_num [List.map_replicate]
  have hAL : (rollingMean 14 (lossList stepCloses))[13]? = some (some 0) := by
    rw [hloss]
    exact rollingMean_replicate_zero_last
  have hAG : (rollingMean 14 (gainList stepCloses))[13]? =
      some (some (1 / 14)) := by
    rw [hgain, rollingMean, getElem?_range_map (by simp)]
    norm_num [List.take_replicate, foldr_add_replicate_zero]
  exact ⟨hAL, hAG,
    C8_amended_rsi cfgDefault stepCloses 13 (1 / 14) hAL hAG (by norm_num)⟩

/-- Forward fill writes the directly preceding valid value into a missing
cell, whatever column position or carried seed. -/
theorem ffillAux_get_next {xs : List (Option α)} {i : ℕ} {c : α}
    (h1 : xs[i]? = some (some c)) (h2 : xs[i + 1]? = some none)
    (cur : Option α) : (ffillAux cur xs)[i + 1]? = some (some c) := by
  induction xs generalizing cur i with
  | nil => simp at h1
  | cons x t ih =>
    cases i with
    | zero =>
      have hx : x = some c := by simpa using h1
      subst hx
      have ht : t[0]? = some none := by simpa using h2
      cases t with
      | nil => simp at ht
      | cons y t2 =>
        have hy : y = none := by simpa using ht
        subst hy
        simp [ffillAux]
    | succ n =>
      have h1' : t[n]? = some (some c) := by simpa using h1
      have h2' : t[n + 1]? = some none := by simpa using h2
      cases x with
      | none => simpa [ffillAux] using ih h1' h2' cur
      | some u => simpa [ffillAux] using ih h1' h2' (some u)

/-- The price-range repair never alters a valid in-range cell. -/
theorem rangeFix_get_inRange {cfg : Config} {xs : List Cell} {j : ℕ} {c : ℚ}
    (hj : xs[j]? = some (some c)) (hc1 : cfg.min_stock_price ≤ c)
    (hc2 : c ≤ cfg.max_stock_price) :
    (rangeFix cfg xs)[j]? = some (some c) := by
  rw [rangeFix]
  split
  · have hor : outOfRange cfg (some c) = false := by
      simp [outOfRange, not_lt.mpr hc1, not_lt.mpr hc2]
    have hmask : (xs.map fun x => if outOfRange cfg x then none else x)[j]? =
        some (some c) := by
      rw [List.getElem?_map, hj]
      simp [hor]
    exact fillCol_get_some hmask
  · exact hj

theorem ohlcStage_Close (f : VFrame) : (ohlcStage f).Close = f.Close :=
  rfl

theorem ohlcStage_Open (f : VFrame) : (ohlcStage f).Open = f.Open :=
  rfl

theorem volumeStage_Close (f : VFrame) : (volumeStage f).Close = f.Close := by
  unfold volumeStage
  split
  · split <;> rfl
  · rfl

theorem flagStage_Close (f : VFrame) : (flagStage f).Close = f.Close := by
  unfold flagStage
  split
  · split <;> rfl
  · rfl

/-- C9: both fill repairs of validate — the initial gap-fill and the refill
after out-of-range prices are set to missing — run over the whole combined
table in row order with no regard to the Symbol column: when the row after a
row of a different symbol has a missing or out-of-range Close and the
preceding row holds a valid in-range Close c, the returned table carries c
into that row. -/
theorem C9_fill_ignores_symbol (cfg : Config) (f : VFrame) (i : ℕ) (c : ℚ)
    (hp : priceShaped f = true) (hO : f.hasOpen = true) (hH : f.hasHigh = true)
    (hL : f.hasLow = true) (hlen : f.Close.length = f.nrows)
    (hprev : f.Close[i]? = some (some c))
    (hbad : f.Close[i + 1]? = some none ∨
      ∃ b, f.Close[i + 1]? = some (some b) ∧ outOfRange cfg (some b) = true)
    (hr1 : cfg.min_stock_price ≤ c) (hr2 : c ≤ cfg.max_stock_price)
    (hsym : f.Symbol[i]? ≠ f.Symbol[i + 1]?) :
    ∃ g, validate cfg f = .ok g ∧ g.Close[i + 1]? = some (some c) := by
  have hlt : i + 1 < f.Close.length := by
    rcases hbad with hmiss | ⟨b, hb, _⟩
    · exact (List.getElem?_eq_some.mp hmiss).1
    · exact (List.getElem?_eq_some.mp hb).1
  have hn0 : ¬ f.nrows = 0 := by omega
  have hval : validate cfg f =
      .ok (flagStage (volumeStage (ohlcStage (rangeStage cfg (fillFrame f))))) := by
    rw [validate, if_neg hn0]
    simp [hp, hO, hH, hL]
  refine ⟨_, hval, ?_⟩
  rw [flagStage_Close, volumeStage_Close, ohlcStage_Close]
  have hc : f.hasClose = true := by
    have h := hp
    simp only [priceShaped, Bool.and_eq_true] at h
    exact h.2
  have hstage : (rangeStage cfg (fillFrame f)).Close =
      rangeFix cfg (fillCol f.Close) := by
    show (if (fillFrame f).hasClose then rangeFix cfg (fillFrame f).Close
      else (fillFrame f).Close) = _
    have hc2 : (fillFrame f).hasClose = true := hc
    rw [if_pos hc2]
    rfl
  rw [hstage]
  have horc : outOfRange cfg (some c) = false := by
    simp [outOfRange, not_lt.mpr hr1, not_lt.mpr hr2]
  rcases hbad with hmiss | ⟨b, hb, hoor⟩
  · exact rangeFix_get_inRange
      (bfill_get_some (ffillAux_get_next hprev hmiss none)) hr1 hr2
  · have hfc : (fillCol f.Close)[i]? = some (some c) := fillCol_get_some hprev
    have hfb : (fillCol f.Close)[i + 1]? = some (some b) := fillCol_get_some hb
    have hguard : (fillCol f.Close).any (outOfRange cfg) = true := by
      refine List.any_eq_true.mpr ⟨some b, ?_, hoor⟩
      obtain ⟨hlt2, heq⟩ := List.getElem?_eq_some.mp hfb
      exact heq ▸ List.getElem_mem hlt2
    rw [rangeFix, if_pos hguard]
    have hmc : ((fillCol f.Close).map
        fun x => if outOfRange cfg x then none else x)[i]? = some (some c) := by
      rw [List.getElem?_map, hfc]
      simp [horc]
    have hmb : ((fillCol f.Close).map
        fun x => if outOfRange cfg x then none else x)[i + 1]? = some none := by
      rw [List.getElem?_map, hfb]
      simp [hoor]
    exact bfill_get_some (ffillAux_get_next hmc hmb none)

/-- C9 witness: two symbols A and B, one row each.  With B's Close missing,
the initial gap-fill carries A's Close 4 across the boundary; with B's Close
200 out of range under cfgSmall, the refill after masking does the same. -/
theorem C9_fill_witness :
    (∃ g, validate cfgSmall frameTwoSym = .ok g ∧ g.Close[0 + 1]? =
      some (some 4)) ∧
    (∃ g, validate cfgSmall frameTwoSymOOR = .ok g ∧ g.Close[0 + 1]? =
      some (some 4)) :=
  ⟨C9_fill_ignores_symbol cfgSmall frameTwoSym 0 4 rfl rfl rfl rfl rfl rfl
      (Or.inl rfl) (by norm_num [cfgSmall]) (by norm_num [cfgSmall])
      (by decide),
   C9_fill_ignores_symbol cfgSmall frameTwoSymOOR 0 4 rfl rfl rfl rfl rfl rfl
      (Or.inr ⟨200, rfl, by decide⟩) (by norm_num [cfgSmall])
      (by norm_num [cfgSmall]) (by decide)⟩

theorem half_eq_div : half = 1 / 2 := by
  show Rat.mk' 1 2 = _
  rw [Rat.mk'_eq_divInt, Rat.divInt_eq_div]
  norm_num

theorem negHalf_eq_div : negHalf = -(1 / 2) := by
  show Rat.mk' (-1) 2 = _
  rw [Rat.mk'_eq_divInt, Rat.divInt_eq_div]
  norm_num

theorem volumeStage_nrows (f : VFrame) : (volumeStage f).nrows = f.nrows := by
  unfold volumeStage
  split
  · split <;> rfl
  · rfl

theorem volumeStage_hasDailyReturn (f : VFrame) :
    (volumeStage f).hasDailyReturn = f.hasDailyReturn := by
  unfold volumeStage
  split
  · split <;> rfl
  · rfl

theorem volumeStage_hasFlag (f : VFrame) :
    (volumeStage f).hasFlag = f.hasFlag := by
  unfold volumeStage
  split
  · split <;> rfl
  · rfl

theorem volumeStage_Daily_Return (f : VFrame) :
    (volumeStage f).Daily_Return = f.Daily_Return := by
  unfold volumeStage
  split
  · split <;> rfl
  · rfl

theorem volumeStage_Extreme_Return_Flag (f : VFrame) :
    (volumeStage f).Extreme_Return_Flag = f.Extreme_Return_Flag := by
  unfold volumeStage
  split
  · split <;> rfl
  · rfl

theorem volumeStage_Open (f : VFrame) : (volumeStage f).Open = f.Open := by
  unfold volumeStage
  split
  · split <;> rfl
  · rfl

theorem volumeStage_High (f : VFrame) : (volumeStage f).High = f.High := by
  unfold volumeStage
  split
  · split <;> rfl
  · rfl

theorem volumeStage_Low (f : VFrame) : (volumeStage f).Low = f.Low := by
  unfold volumeStage
  split
  · split <;> rfl
  · rfl

theorem volumeStage_Date (f : VFrame) : (volumeStage f).Date = f.Date := by
  unfold volumeStage
  split
  · split <;> rfl
  · rfl

theorem volumeStage_Symbol (f : VFrame) : (volumeStage f).Symbol = f.Symbol := by
  unfold volumeStage
  split
  · split <;> rfl
  · rfl

theorem flagStage_Open (f : VFrame) : (flagStage f).Open = f.Open := by
  unfold flagStage
  split
  · split <;> rfl
  · rfl

theorem flagStage_High (f : VFrame) : (flagStage f).High = f.High := by
  unfold flagStage
  split
  · split <;> rfl
  · rfl

theorem flagStage_Low (f : VFrame) : (flagStage f).Low = f.Low := by
  unfold flagStage
  split
  · split <;> rfl
  · rfl

theorem flagStage_Date (f : VFrame) : (flagStage f).Date = f.Date := by
  unfold flagStage
  split
  · split <;> rfl
  · rfl

theorem flagStage_Symbol (f : VFrame) : (flagStage f).Symbol = f.Symbol := by
  unfold flagStage
  split
  · split <;> rfl
  · rfl

theorem flagStage_nrows (f : VFrame) : (flagStage f).nrows = f.nrows := by
  unfold flagStage
  split
  · split <;> rfl
  · rfl

/-- C3: amended. On a price-shaped frame with a Daily_Return column (and no
pre-existing flag column), the Extreme_Return_Flag column is created only
when at least one row has Daily_Return below -0.5 or above 0.5; when it is
created it is true exactly on those rows and false elsewhere; no row is
removed; extremeB is the predicate |Daily_Return| > 0.5; and the flagging
step alters no other column of any frame. -/
theorem C3_amended_flag (cfg : Config) (f : VFrame)
    (hp : priceShaped f = true) (hO : f.hasOpen = true)
    (hH : f.hasHigh = true) (hL : f.hasLow = true)
    (hn0 : f.nrows ≠ 0) (hDR : f.hasDailyReturn = true)
    (hF : f.hasFlag = false) :
    ∃ g, validate cfg f = .ok g ∧
      g.nrows = f.nrows ∧
      g.Daily_Return = fillCol f.Daily_Return ∧
      g.hasFlag = g.Daily_Return.any extremeB ∧
      (g.hasFlag = true →
        g.Extreme_Return_Flag = g.Daily_Return.map fun r => some (extremeB r)) ∧
      (∀ q : ℚ, extremeB (some q) = decide (1 / 2 < |q|)) ∧
      (∀ h : VFrame, (flagStage h).nrows = h.nrows ∧
        (flagStage h).Date = h.Date ∧ (flagStage h).Symbol = h.Symbol ∧
        (flagStage h).Open = h.Open ∧ (flagStage h).High = h.High ∧
        (flagStage h).Low = h.Low ∧ (flagStage h).Close = h.Close ∧
        (flagStage h).Adj_Close = h.Adj_Close ∧
        (flagStage h).Volume = h.Volume ∧
        (flagStage h).Daily_Return = h.Daily_Return) := by
  have hval : validate cfg f =
      .ok (flagStage (volumeStage (ohlcStage (rangeStage cfg (fillFrame f))))) := by
    rw [validate, if_neg hn0]
    simp [hp, hO, hH, hL]
  set V := volumeStage (ohlcStage (rangeStage cfg (fillFrame f))) with hV
  have hVDR : V.Daily_Return = fillCol f.Daily_Return := by
    rw [hV, volumeStage_Daily_Return]
    rfl
  have hVhasDR : V.hasDailyReturn = true := by
    rw [hV, volumeStage_hasDailyReturn]
    exact hDR
  have hVhasFlag : V.hasFlag = false := by
    rw [hV, volumeStage_hasFlag]
    exact hF
  have hVn : V.nrows = f.nrows := by
    rw [hV, volumeStage_nrows]
    rfl
  have hext : ∀ q : ℚ, extremeB (some q) = decide (1 / 2 < |q|) := by
    intro q
    simp only [extremeB, oLt, negHalf_eq_div, half_eq_div]
    rw [← Bool.decide_or]
    refine decide_eq_decide.mpr ?_
    rw [lt_abs]
    constructor
    · rintro (h | h)
      · right; linarith
      · left; exact h
    · rintro (h | h)
      · right; exact h
      · left; linarith
  have hpres : ∀ h : VFrame, (flagStage h).nrows = h.nrows ∧
      (flagStage h).Date = h.Date ∧ (flagStage h).Symbol = h.Symbol ∧
      (flagStage h).Open = h.Open ∧ (flagStage h).High = h.High ∧
      (flagStage h).Low = h.Low ∧ (flagStage h).Close = h.Close ∧
      (flagStage h).Adj_Close = h.Adj_Close ∧
      (flagStage h).Volume = h.Volume ∧
      (flagStage h).Daily_Return = h.Daily_Return := by
    intro h
    unfold flagStage
    split
    · split <;> simp
    · simp
  refine ⟨flagStage V, hval, ?_⟩
  by_cases hany : V.Daily_Return.any extremeB = true
  · have hg : flagStage V = { V with
        hasFlag := true
        Extreme_Return_Flag :=
          V.Daily_Return.map (fun r => some (extremeB r)) } := by
      unfold flagStage
      rw [if_pos hVhasDR, if_pos hany]
    rw [hg]
    exact ⟨hVn, hVDR, by simp [hany], fun _ => rfl, hext, hpres⟩
  · have hg : flagStage V = V := by
      unfold flagStage
      rw [if_pos hVhasDR, if_neg hany]
    rw [hg]
    refine ⟨hVn, hVDR, ?_, ?_, hext, hpres⟩
    · rw [hVhasFlag]
      simp only [Bool.not_eq_true] at hany
      exact hany.symm
    · intro hcontra
      rw [hVhasFlag] at hcontra
      simp at hcontra

/-- C3 witness: the two-row frame with Daily_Return [NaN, 1] gets a flag
column that is false on the first row and true on the extreme second row. -/
theorem C3_flag_witness :
    ∃ g, validate cfgSmall frameJump = .ok g ∧
      g.nrows = frameJump.nrows ∧
      g.Daily_Return = fillCol frameJump.Daily_Return ∧
      g.hasFlag = g.Daily_Return.any extremeB ∧
      (g.hasFlag = true →
        g.Extreme_Return_Flag = g.Daily_Return.map fun r => some (extremeB r)) ∧
      (∀ q : ℚ, extremeB (some q) = decide (1 / 2 < |q|)) ∧
      (∀ h : VFrame, (flagStage h).nrows = h.nrows ∧
        (flagStage h).Date = h.Date ∧ (flagStage h).Symbol = h.Symbol ∧
        (flagStage h).Open = h.Open ∧ (flagStage h).High = h.High ∧
        (flagStage h).Low = h.Low ∧ (flagStage h).Close = h.Close ∧
        (flagStage h).Adj_Close = h.Adj_Close ∧
        (flagStage h).Volume = h.Volume ∧
        (flagStage h).Daily_Return = h.Daily_Return) :=
  C3_amended_flag cfgSmall frameJump rfl rfl rfl rfl (by decide) rfl rfl

theorem length_rangeFix (cfg : Config) (xs : List Cell) :
    (rangeFix cfg xs).length = xs.length := by
  rw [rangeFix]
  split
  · rw [length_fillCol, List.length_map]
  · rfl

theorem inRange_of_not_outOfRange {cfg : Config} {w : ℚ}
    (h : outOfRange cfg (some w) = false) : inRange cfg w := by
  simp only [outOfRange, Bool.or_eq_false_iff, decide_eq_false_iff_not,
    not_lt] at h
  exact ⟨h.1, h.2⟩

theorem inRange_max {cfg : Config} {a b : ℚ} (ha : inRange cfg a)
    (hb : inRange cfg b) : inRange cfg (max a b) :=
  ⟨le_max_of_le_left ha.1, max_le ha.2 hb.2⟩

theorem inRange_min {cfg : Config} {a b : ℚ} (ha : inRange cfg a)
    (hb : inRange cfg b) : inRange cfg (min a b) :=
  ⟨le_min ha.1 hb.1, min_le_of_left_le ha.2⟩

/-- After the whole-frame gap fill and the per-column range repair, a column
that originally held at least one valid in-range value holds a valid in-range
value in every row. -/
theorem fillRange_all_good {cfg : Config} {xs : List Cell} {k : ℕ} {v : ℚ}
    (hk : xs[k]? = some (some v)) (hv : inRange cfg v) {j : ℕ}
    (hj : j < xs.length) :
    ∃ w, (rangeFix cfg (fillCol xs))[j]? = some (some w) ∧ inRange cfg w := by
  have hysk : (fillCol xs)[k]? = some (some v) := fillCol_get_some hk
  rw [rangeFix]
  split
  · have hor : outOfRange cfg (some v) = false := by
      simp [outOfRange, not_lt.mpr hv.1, not_lt.mpr hv.2]
    have hzs_k : ((fillCol xs).map
        fun x => if outOfRange cfg x then none else x)[k]? = some (some v) := by
      rw [List.getElem?_map, hysk]
      simp [hor]
    have hjz : j < ((fillCol xs).map
        fun x => if outOfRange cfg x then none else x).length := by
      rw [List.length_map, length_fillCol]
      exact hj
    obtain ⟨w, hw⟩ := fillCol_all_some hzs_k hjz
    refine ⟨w, hw, ?_⟩
    have hmem : some w ∈ fillCol ((fillCol xs).map
        fun x => if outOfRange cfg x then none else x) :=
      List.mem_iff_getElem?.mpr ⟨j, hw⟩
    rcases mem_fillCol hmem with hcon | hmem2
    · exact absurd hcon (by simp)
    · obtain ⟨y, _, hyeq⟩ := List.mem_map.mp hmem2
      by_cases hyo : outOfRange cfg y = true
      · rw [if_pos hyo] at hyeq
        exact absurd hyeq (by simp)
      · rw [if_neg hyo] at hyeq
        rw [hyeq] at hyo
        exact inRange_of_not_outOfRange (by simpa using hyo)
  · next hany =>
    obtain ⟨w, hw⟩ := fillCol_all_some hk hj
    refine ⟨w, hw, ?_⟩
    have hmem : some w ∈ fillCol xs := List.mem_iff_getElem?.mpr ⟨j, hw⟩
    refine inRange_of_not_outOfRange ?_
    rcases h : outOfRange cfg (some w) with _ | _
    · rfl
    · exact absurd (List.any_eq_true.mpr ⟨some w, hmem, h⟩) hany

theorem colGood_of_pointwise {cfg : Config} {xs : List Cell} {n : ℕ}
    (hlen : xs.length = n)
    (hpt : ∀ j, j < n → ∃ w, xs[j]? = some (some w) ∧ inRange cfg w) :
    colGood cfg xs := by
  intro y hy
  obtain ⟨j, hj⟩ := List.mem_iff_getElem?.mp hy
  have hjn : j < n := by
    have := (List.getElem?_eq_some.mp hj).1
    omega
  obtain ⟨w, hw, hr⟩ := hpt j hjn
  rw [hj] at hw
  injection hw with h2
  exact ⟨w, h2, hr⟩

/-- A row that passes the OHLC consistency test with all four prices valid
satisfies the expected inequalities. -/
theorem inconsRow_false_somes {o h l c : ℚ}
    (hic : inconsRow (some o) (some h) (some l) (some c) = false) :
    l ≤ h ∧ o ≤ h ∧ c ≤ h ∧ l ≤ o ∧ l ≤ c := by
  obtain ⟨h1, h2, h3, h4, h5⟩ :
      oLt (some h) (some l) = false ∧ oLt (some h) (some o) = false ∧
      oLt (some h) (some c) = false ∧ oLt (some o) (some l) = false ∧
      oLt (some c) (some l) = false := by
    simpa only [inconsRow, Bool.or_eq_false_iff, and_assoc] using hic
  exact ⟨not_lt.mp (of_decide_eq_false h1), not_lt.mp (of_decide_eq_false h2),
    not_lt.mp (of_decide_eq_false h3), not_lt.mp (of_decide_eq_false h4),
    not_lt.mp (of_decide_eq_false h5)⟩

/-- C1: amended. On a price-shaped frame whose Open, High, Low and Close
columns each contain at least one valid in-range value, validate succeeds and
in the returned table every row satisfies Low ≤ Open ≤ High,
Low ≤ Close ≤ High with all four prices valid and within
[min_price, max_price]; Open and Close pass through the OHLC repair
unchanged, and each row's High and Low are the Python max respectively min of
that row's four post-fill prices exactly on the rows that violated OHLC
consistency, the original post-fill High and Low elsewhere. -/
theorem C1_amended_invariant (cfg : Config) (f : VFrame)
    (hp : priceShaped f = true) (hO : f.hasOpen = true) (hH : f.hasHigh = true)
    (hL : f.hasLow = true)
    (hlenO : f.Open.length = f.nrows) (hlenH : f.High.length = f.nrows)
    (hlenL : f.Low.length = f.nrows) (hlenC : f.Close.length = f.nrows)
    (hexO : ∃ (k : ℕ) (v : ℚ), f.Open[k]? = some (some v) ∧ inRange cfg v)
    (hexH : ∃ (k : ℕ) (v : ℚ), f.High[k]? = some (some v) ∧ inRange cfg v)
    (hexL : ∃ (k : ℕ) (v : ℚ), f.Low[k]? = some (some v) ∧ inRange cfg v)
    (hexC : ∃ (k : ℕ) (v : ℚ), f.Close[k]? = some (some v) ∧ inRange cfg v) :
    ∃ g, validate cfg f = .ok g ∧
      colGood cfg g.Open ∧ colGood cfg g.High ∧ colGood cfg g.Low ∧
      colGood cfg g.Close ∧
      (∀ (i : ℕ) (o h l c : ℚ), g.Open[i]? = some (some o) →
        g.High[i]? = some (some h) →
        g.Low[i]? = some (some l) → g.Close[i]? = some (some c) →
        l ≤ o ∧ o ≤ h ∧ l ≤ c ∧ c ≤ h) ∧
      g.Open = (rangeStage cfg (fillFrame f)).Open ∧
      g.Close = (rangeStage cfg (fillFrame f)).Close ∧
      (∀ (i : ℕ) (o h l c : Cell),
        (rangeStage cfg (fillFrame f)).Open[i]? = some o →
        (rangeStage cfg (fillFrame f)).High[i]? = some h →
        (rangeStage cfg (fillFrame f)).Low[i]? = some l →
        (rangeStage cfg (fillFrame f)).Close[i]? = some c →
        g.High[i]? = some (if inconsRow o h l c then pyMax4 o h l c else h) ∧
        g.Low[i]? = some (if inconsRow o h l c then pyMin4 o h l c else l)) := by
  obtain ⟨kO, vO, hkO, hvO⟩ := hexO
  obtain ⟨kH, vH, hkH, hvH⟩ := hexH
  obtain ⟨kL, vL, hkL, hvL⟩ := hexL
  obtain ⟨kC, vC, hkC, hvC⟩ := hexC
  have hkO' : kO < f.Open.length := (List.getElem?_eq_some.mp hkO).1
  have hn0 : ¬ f.nrows = 0 := by omega
  have hval : validate cfg f =
      .ok (flagStage (volumeStage (ohlcStage (rangeStage cfg (fillFrame f))))) := by
    rw [validate, if_neg hn0]
    simp [hp, hO, hH, hL]
  set M := rangeStage cfg (fillFrame f) with hM
  have hc : f.hasClose = true := by
    have h := hp
    simp only [priceShaped, Bool.and_eq_true] at h
    exact h.2
  have hMO : M.Open = rangeFix cfg (fillCol f.Open) := by
    rw [hM]
    show (if (fillFrame f).hasOpen then rangeFix cfg (fillFrame f).Open
      else (fillFrame f).Open) = _
    rw [if_pos (show (fillFrame f).hasOpen = true from hO)]
    rfl
  have hMH : M.High = rangeFix cfg (fillCol f.High) := by
    rw [hM]
    show (if (fillFrame f).hasHigh then rangeFix cfg (fillFrame f).High
      else (fillFrame f).High) = _
    rw [if_pos (show (fillFrame f).hasHigh = true from hH)]
    rfl
  have hML : M.Low = rangeFix cfg (fillCol f.Low) := by
    rw [hM]
    show (if (fillFrame f).hasLow then rangeFix cfg (fillFrame f).Low
      else (fillFrame f).Low) = _
    rw [if_pos (show (fillFrame f).hasLow = true from hL)]
    rfl
  have hMC : M.Close = rangeFix cfg (fillCol f.Close) := by
    rw [hM]
    show (if (fillFrame f).hasClose then rangeFix cfg (fillFrame f).Close
      else (fillFrame f).Close) = _
    rw [if_pos (show (fillFrame f).hasClose = true from hc)]
    rfl
  have hgoodO : ∀ j, j < f.nrows →
      ∃ w, M.Open[j]? = some (some w) ∧ inRange cfg w := by
    intro j hj
    rw [hMO]
    exact fillRange_all_good hkO hvO (by omega)
  have hgoodH : ∀ j, j < f.nrows →
      ∃ w, M.High[j]? = some (some w) ∧ inRange cfg w := by
    intro j hj
    have : kH < f.High.length := (List.getElem?_eq_some.mp hkH).1
    rw [hMH]
    exact fillRange_all_good hkH hvH (by omega)
  have hgoodL : ∀ j, j < f.nrows →
      ∃ w, M.Low[j]? = some (some w) ∧ inRange cfg w := by
    intro j hj
    have : kL < f.Low.length := (List.getElem?_eq_some.mp hkL).1
    rw [hML]
    exact fillRange_all_good hkL hvL (by omega)
  have hgoodC : ∀ j, j < f.nrows →
      ∃ w, M.Close[j]? = some (some w) ∧ inRange cfg w := by
    intro j hj
    have : kC < f.Close.length := (List.getElem?_eq_some.mp hkC).1
    rw [hMC]
    exact fillRange_all_good hkC hvC (by omega)
  have hMlenO : M.Open.length = f.nrows := by
    rw [hMO, length_rangeFix, length_fillCol, hlenO]
  have hMlenH : M.High.length = f.nrows := by
    rw [hMH, length_rangeFix, length_fillCol, hlenH]
  have hMlenL : M.Low.length = f.nrows := by
    rw [hML, length_rangeFix, length_fillCol, hlenL]
  have hMlenC : M.Close.length = f.nrows := by
    rw [hMC, length_rangeFix, length_fillCol, hlenC]
  set G := flagStage (volumeStage (ohlcStage M)) with hG
  have hGO : G.Open = M.Open := by
    rw [hG, flagStage_Open, volumeStage_Open, ohlcStage_Open]
  have hGC : G.Close = M.Close := by
    rw [hG, flagStage_Close, volumeStage_Close, ohlcStage_Close]
  have hGH : G.High = zipWith4
      (fun o h l c => if inconsRow o h l c then pyMax4 o h l c else h)
      M.Open M.High M.Low M.Close := by
    rw [hG, flagStage_High, volumeStage_High]
    rfl
  have hGL : G.Low = zipWith4
      (fun o h l c => if inconsRow o h l c then pyMin4 o h l c else l)
      M.Open M.High M.Low M.Close := by
    rw [hG, flagStage_Low, volumeStage_Low]
    rfl
  have hcgO : colGood cfg M.Open := colGood_of_pointwise hMlenO hgoodO
  have hcgH : colGood cfg M.High := colGood_of_pointwise hMlenH hgoodH
  have hcgL : colGood cfg M.Low := colGood_of_pointwise hMlenL hgoodL
  have hcgC : colGood cfg M.Close := colGood_of_pointwise hMlenC hgoodC
  refine ⟨G, hval, ?_, ?_, ?_, ?_, ?_, hGO, hGC, ?_⟩
  · rw [hGO]
    exact hcgO
  · rw [hGH]
    intro y hy
    obtain ⟨o, h, l, c, ho, hh, hl2, hc2, rfl⟩ := mem_zipWith4 hy
    obtain ⟨vo, rfl, hro⟩ := hcgO o ho
    obtain ⟨vh, rfl, hrh⟩ := hcgH h hh
    obtain ⟨vl, rfl, hrl⟩ := hcgL l hl2
    obtain ⟨vc, rfl, hrc⟩ := hcgC c hc2
    by_cases hic :
        inconsRow (some vo) (some vh) (some vl) (some vc) = true
    · rw [if_pos hic, pyMax4_some]
      exact ⟨_, rfl, inRange_max (inRange_max (inRange_max hro hrh) hrl) hrc⟩
    · rw [if_neg hic]
      exact ⟨vh, rfl, hrh⟩
  · rw [hGL]
    intro y hy
    obtain ⟨o, h, l, c, ho, hh, hl2, hc2, rfl⟩ := mem_zipWith4 hy
    obtain ⟨vo, rfl, hro⟩ := hcgO o ho
    obtain ⟨vh, rfl, hrh⟩ := hcgH h hh
    obtain ⟨vl, rfl, hrl⟩ := hcgL l hl2
    obtain ⟨vc, rfl, hrc⟩ := hcgC c hc2
    by_cases hic :
        inconsRow (some vo) (some vh) (some vl) (some vc) = true
    · rw [if_pos hic, pyMin4_some]
      exact ⟨_, rfl, inRange_min (inRange_min (inRange_min hro hrh) hrl) hrc⟩
    · rw [if_neg hic]
      exact ⟨vl, rfl, hrl⟩
  · rw [hGC]
    exact hcgC
  · intro i o h l c ho hh hl2 hc2
    rw [hGO] at ho
    rw [hGC] at hc2
    have hi : i < f.nrows := by
      have := (List.getElem?_eq_some.mp ho).1
      omega
    obtain ⟨vh, hvhM, hrh⟩ := hgoodH i hi
    obtain ⟨vl, hvlM, hrl⟩ := hgoodL i hi
    have hzH : G.High[i]? = some (if inconsRow (some o) (some vh) (some vl)
        (some c) then pyMax4 (some o) (some vh) (some vl) (some c)
        else some vh) := by
      rw [hGH]
      exact getElem?_zipWith4_some ho hvhM hvlM hc2
    have hzL : G.Low[i]? = some (if inconsRow (some o) (some vh) (some vl)
        (some c) then pyMin4 (some o) (some vh) (some vl) (some c)
        else some vl) := by
      rw [hGL]
      exact getElem?_zipWith4_some ho hvhM hvlM hc2
    rw [hzH] at hh
    rw [hzL] at hl2
    injection hh with hh2
    injection hl2 with hl3
    by_cases hic : inconsRow (some o) (some vh) (some vl) (some c) = true
    · rw [if_pos hic, pyMax4_some] at hh2
      rw [if_pos hic, pyMin4_some] at hl3
      injection hh2 with hh3
      injection hl3 with hl4
      subst hh3
      subst hl4
      refine ⟨le_trans (min_le_left _ _)
        (le_trans (min_le_left _ _) (min_le_left _ _)), ?_, min_le_right _ _,
        le_max_right _ _⟩
      exact le_trans (le_max_left o vh)
        (le_trans (le_max_left _ _) (le_max_left _ _))
    · rw [if_neg hic] at hh2 hl3
      injection hh2 with hh3
      injection hl3 with hl4
      subst hh3
      subst hl4
      obtain ⟨g1, g2, g3, g4, g5⟩ :=
        inconsRow_false_somes (Bool.not_eq_true _ ▸ hic)
      exact ⟨g4, g2, g5, g3⟩
  · intro i o h l c ho hh hl2 hc2
    constructor
    · rw [hGH]
      exact getElem?_zipWith4_some ho hh hl2 hc2
    · rw [hGL]
      exact getElem?_zipWith4_some ho hh hl2 hc2

/-- C1 witness: under bounds [1, 100], a frame with one OHLC-inconsistent row
and one out-of-range Close satisfies every hypothesis, so the validated
output satisfies the full price invariant. -/
theorem C1_invariant_witness :
    ∃ g, validate cfgSmall frameRepair = .ok g ∧
      colGood cfgSmall g.Open ∧ colGood cfgSmall g.High ∧
      colGood cfgSmall g.Low ∧ colGood cfgSmall g.Close ∧
      (∀ (i : ℕ) (o h l c : ℚ), g.Open[i]? = some (some o) →
        g.High[i]? = some (some h) →
        g.Low[i]? = some (some l) → g.Close[i]? = some (some c) →
        l ≤ o ∧ o ≤ h ∧ l ≤ c ∧ c ≤ h) ∧
      g.Open = (rangeStage cfgSmall (fillFrame frameRepair)).Open ∧
      g.Close = (rangeStage cfgSmall (fillFrame frameRepair)).Close ∧
      (∀ (i : ℕ) (o h l c : Cell),
        (rangeStage cfgSmall (fillFrame frameRepair)).Open[i]? = some o →
        (rangeStage cfgSmall (fillFrame frameRepair)).High[i]? = some h →
        (rangeStage cfgSmall (fillFrame frameRepair)).Low[i]? = some l →
        (rangeStage cfgSmall (fillFrame frameRepair)).Close[i]? = some c →
        g.High[i]? = some (if inconsRow o h l c then pyMax4 o h l c else h) ∧
        g.Low[i]? = some (if inconsRow o h l c then pyMin4 o h l c else l)) :=
  C1_amended_invariant cfgSmall frameRepair rfl rfl rfl rfl rfl rfl rfl rfl
    ⟨0, 5, rfl, by norm_num [cfgSmall, inRange]⟩
    ⟨0, 3, rfl, by norm_num [cfgSmall, inRange]⟩
    ⟨0, 4, rfl, by norm_num [cfgSmall, inRange]⟩
    ⟨0, 6, rfl, by norm_num [cfgSmall, inRange]⟩

theorem fillCol_allSome {xs : List (Option α)} {k : ℕ} {v : α}
    (hk : xs[k]? = some (some v)) : allSomeCol (fillCol xs) := by
  intro y hy
  obtain ⟨j, hj⟩ := List.mem_iff_getElem?.mp hy
  have hjl : j < xs.length := by
    have := (List.getElem?_eq_some.mp hj).1
    rw [length_fillCol] at this
    exact this
  obtain ⟨w, hw⟩ := fillCol_all_some hk hjl
  rw [hj] at hw
  injection hw with h2
  rw [h2]
  rfl

theorem allSomeCol_of_colGood {cfg : Config} {xs : List Cell}
    (h : colGood cfg xs) : allSomeCol xs := by
  intro y hy
  obtain ⟨v, rfl, _⟩ := h y hy
  rfl

/-- C4: amended. On a price-shaped frame whose Date and Symbol columns each
contain at least one valid value and whose Open, High, Low, Close columns
each contain at least one valid in-range value, the table returned by
validate has no missing cells in any of the six key columns. -/
theorem C4_amended_nonull (cfg : Config) (f : VFrame)
    (hp : priceShaped f = true) (hO : f.hasOpen = true) (hH : f.hasHigh = true)
    (hL : f.hasLow = true)
    (hlenO : f.Open.length = f.nrows) (hlenH : f.High.length = f.nrows)
    (hlenL : f.Low.length = f.nrows) (hlenC : f.Close.length = f.nrows)
    (hexD : ∃ (k : ℕ) (v : ℚ), f.Date[k]? = some (some v))
    (hexS : ∃ (k : ℕ) (v : String), f.Symbol[k]? = some (some v))
    (hexO : ∃ (k : ℕ) (v : ℚ), f.Open[k]? = some (some v) ∧ inRange cfg v)
    (hexH : ∃ (k : ℕ) (v : ℚ), f.High[k]? = some (some v) ∧ inRange cfg v)
    (hexL : ∃ (k : ℕ) (v : ℚ), f.Low[k]? = some (some v) ∧ inRange cfg v)
    (hexC : ∃ (k : ℕ) (v : ℚ), f.Close[k]? = some (some v) ∧ inRange cfg v) :
    ∃ g, validate cfg f = .ok g ∧
      allSomeCol g.Date ∧ allSomeCol g.Symbol ∧ allSomeCol g.Open ∧
      allSomeCol g.High ∧ allSomeCol g.Low ∧ allSomeCol g.Close := by
  obtain ⟨kD, vD, hkD⟩ := hexD
  obtain ⟨kS, vS, hkS⟩ := hexS
  obtain ⟨kO, vO, hkO, hvO⟩ := hexO
  obtain ⟨kH, vH, hkH, hvH⟩ := hexH
  obtain ⟨kL, vL, hkL, hvL⟩ := hexL
  obtain ⟨kC, vC, hkC, hvC⟩ := hexC
  have hkO' : kO < f.Open.length := (List.getElem?_eq_some.mp hkO).1
  have hn0 : ¬ f.nrows = 0 := by omega
  have hval : validate cfg f =
      .ok (flagStage (volumeStage (ohlcStage (rangeStage cfg (fillFrame f))))) := by
    rw [validate, if_neg hn0]
    simp [hp, hO, hH, hL]
  set M := rangeStage cfg (fillFrame f) with hM
  have hc : f.hasClose = true := by
    have h := hp
    simp only [priceShaped, Bool.and_eq_true] at h
    exact h.2
  have hMO : M.Open = rangeFix cfg (fillCol f.Open) := by
    rw [hM]
    show (if (fillFrame f).hasOpen then rangeFix cfg (fillFrame f).Open
      else (fillFrame f).Open) = _
    rw [if_pos (show (fillFrame f).hasOpen = true from hO)]
    rfl
  have hMH : M.High = rangeFix cfg (fillCol f.High) := by
    rw [hM]
    show (if (fillFrame f).hasHigh then rangeFix cfg (fillFrame f).High
      else (fillFrame f).High) = _
    rw [if_pos (show (fillFrame f).hasHigh = true from hH)]
    rfl
  have hML : M.Low = rangeFix cfg (fillCol f.Low) := by
    rw [hM]
    show (if (fillFrame f).hasLow then rangeFix cfg (fillFrame f).Low
      else (fillFrame f).Low) = _
    rw [if_pos (show (fillFrame f).hasLow = true from hL)]
    rfl
  have hMC : M.Close = rangeFix cfg (fillCol f.Close) := by
    rw [hM]
    show (if (fillFrame f).hasClose then rangeFix cfg (fillFrame f).Close
      else (fillFrame f).Close) = _
    rw [if_pos (show (fillFrame f).hasClose = true from hc)]
    rfl
  have hgoodO : ∀ j, j < f.nrows →
      ∃ w, M.Open[j]? = some (some w) ∧ inRange cfg w := by
    intro j hj
    rw [hMO]
    exact fillRange_all_good hkO hvO (by omega)
  have hgoodH : ∀ j, j < f.nrows →
      ∃ w, M.High[j]? = some (some w) ∧ inRange cfg w := by
    intro j hj
    have : kH < f.High.length := (List.getElem?_eq_some.mp hkH).1
    rw [hMH]
    exact fillRange_all_good hkH hvH (by omega)
  have hgoodL : ∀ j, j < f.nrows →
      ∃ w, M.Low[j]? = some (some w) ∧ inRange cfg w := by
    intro j hj
    have : kL < f.Low.length := (List.getElem?_eq_some.mp hkL).1
    rw [hML]
    exact fillRange_all_good hkL hvL (by omega)
  have hgoodC : ∀ j, j < f.nrows →
      ∃ w, M.Close[j]? = some (some w) ∧ inRange cfg w := by
    intro j hj
    have : kC < f.Close.length := (List.getElem?_eq_some.mp hkC).1
    rw [hMC]
    exact fillRange_all_good hkC hvC (by omega)
  have hMlenO : M.Open.length = f.nrows := by
    rw [hMO, length_rangeFix, length_fillCol, hlenO]
  have hMlenH : M.High.length = f.nrows := by
    rw [hMH, length_rangeFix, length_fillCol, hlenH]
  have hMlenL : M.Low.length = f.nrows := by
    rw [hML, length_rangeFix, length_fillCol, hlenL]
  have hMlenC : M.Close.length = f.nrows := by
    rw [hMC, length_rangeFix, length_fillCol, hlenC]
  have hcgO : colGood cfg M.Open := colGood_of_pointwise hMlenO hgoodO
  have hcgH : colGood cfg M.High := colGood_of_pointwise hMlenH hgoodH
  have hcgL : colGood cfg M.Low := colGood_of_pointwise hMlenL hgoodL
  have hcgC : colGood cfg M.Close := colGood_of_pointwise hMlenC hgoodC
  set G := flagStage (volumeStage (ohlcStage M)) with hG
  have hGD : G.Date = fillCol f.Date := by
    rw [hG, flagStage_Date, volumeStage_Date]
    rfl
  have hGS : G.Symbol = fillCol f.Symbol := by
    rw [hG, flagStage_Symbol, volumeStage_Symbol]
    rfl
  have hGO : G.Open = M.Open := by
    rw [hG, flagStage_Open, volumeStage_Open, ohlcStage_Open]
  have hGC : G.Close = M.Close := by
    rw [hG, flagStage_Close, volumeStage_Close, ohlcStage_Close]
  have hGH : G.High = zipWith4
      (fun o h l c => if inconsRow o h l c then pyMax4 o h l c else h)
      M.Open M.High M.Low M.Close := by
    rw [hG, flagStage_High, volumeStage_High]
    rfl
  have hGL : G.Low = zipWith4
      (fun o h l c => if inconsRow o h l c then pyMin4 o h l c else l)
      M.Open M.High M.Low M.Close := by
    rw [hG, flagStage_Low, volumeStage_Low]
    rfl
  refine ⟨G, hval, ?_, ?_, ?_, ?_, ?_, ?_⟩
  · rw [hGD]
    exact fillCol_allSome hkD
  · rw [hGS]
    exact fillCol_allSome hkS
  · rw [hGO]
    exact allSomeCol_of_colGood hcgO
  · rw [hGH]
    refine @allSomeCol_of_colGood cfg _ ?_
    intro y hy
    obtain ⟨o, h, l, c, ho, hh, hl2, hc2, rfl⟩ := mem_zipWith4 hy
    obtain ⟨vo, rfl, hro⟩ := hcgO o ho
    obtain ⟨vh, rfl, hrh⟩ := hcgH h hh
    obtain ⟨vl, rfl, hrl⟩ := hcgL l hl2
    obtain ⟨vc, rfl, hrc⟩ := hcgC c hc2
    by_cases hic :
        inconsRow (some vo) (some vh) (some vl) (some vc) = true
    · rw [if_pos hic, pyMax4_some]
      exact ⟨_, rfl, inRange_max (inRange_max (inRange_max hro hrh) hrl) hrc⟩
    · rw [if_neg hic]
      exact ⟨vh, rfl, hrh⟩
  · rw [hGL]
    refine @allSomeCol_of_colGood cfg _ ?_
    intro y hy
    obtain ⟨o, h, l, c, ho, hh, hl2, hc2, rfl⟩ := mem_zipWith4 hy
    obtain ⟨vo, rfl, hro⟩ := hcgO o ho
    obtain ⟨vh, rfl, hrh⟩ := hcgH h hh
    obtain ⟨vl, rfl, hrl⟩ := hcgL l hl2
    obtain ⟨vc, rfl, hrc⟩ := hcgC c hc2
    by_cases hic :
        inconsRow (some vo) (some vh) (some vl) (some vc) = true
    · rw [if_pos hic, pyMin4_some]
      exact ⟨_, rfl, inRange_min (inRange_min (inRange_min hro hrh) hrl) hrc⟩
    · rw [if_neg hic]
      exact ⟨vl, rfl, hrl⟩
  · rw [hGC]
    exact allSomeCol_of_colGood hcgC

/-- C4 witness: the repair frame has valid dates and symbols and an in-range
value in each price column, so the validated output has no nulls in the six
key columns. -/
theorem C4_nonull_witness :
    ∃ g, validate cfgSmall frameRepair = .ok g ∧
      allSomeCol g.Date ∧ allSomeCol g.Symbol ∧ allSomeCol g.Open ∧
      allSomeCol g.High ∧ allSomeCol g.Low ∧ allSomeCol g.Close :=
  C4_amended_nonull cfgSmall frameRepair rfl rfl rfl rfl rfl rfl rfl rfl
    ⟨0, 1, rfl⟩ ⟨0, "A", rfl⟩
    ⟨0, 5, rfl, by norm_num [cfgSmall, inRange]⟩
    ⟨0, 3, rfl, by norm_num [cfgSmall, inRange]⟩
    ⟨0, 4, rfl, by norm_num [cfgSmall, inRange]⟩
    ⟨0, 6, rfl, by norm_num [cfgSmall, inRange]⟩

/-- When every row passes the OHLC consistency test, the repair leaves the
High and Low columns unchanged. -/
theorem zipWith4_fix_eq_self (O H L C : List Cell)
    (hall : (zipWith4 inconsRow O H L C).all (fun b => !b) = true)
    (h1 : O.length = H.length) (h2 : L.length = H.length)
    (h3 : C.length = H.length) :
    zipWith4 (fun o h l c => if inconsRow o h l c then pyMax4 o h l c else h)
      O H L C = H ∧
    zipWith4 (fun o h l c => if inconsRow o h l c then pyMin4 o h l c else l)
      O H L C = L := by
  induction O generalizing H L C with
  | nil =>
    have hH : H = [] := List.length_eq_zero.mp h1.symm
    subst hH
    have hL : L = [] := List.length_eq_zero.mp h2
    have hC : C = [] := List.length_eq_zero.mp h3
    subst hL
    subst hC
    exact ⟨rfl, rfl⟩
  | cons o O ih =>
    cases H with
    | nil => simp at h1
    | cons h H =>
      cases L with
      | nil => simp at h2
      | cons l L =>
        cases C with
        | nil => simp at h3
        | cons c C =>
          simp only [zipWith4, List.all_cons, Bool.and_eq_true] at hall
          obtain ⟨ha, hrest⟩ := hall
          have hic : inconsRow o h l c = false := by simpa using ha
          have ihh := ih H L C hrest (by simpa using h1) (by simpa using h2)
            (by simpa using h3)
          constructor
          · simp only [zipWith4, hic, Bool.false_eq_true, if_false, ihh.1]
          · simp only [zipWith4, hic, Bool.false_eq_true, if_false, ihh.2]

/-- The whole-frame gap fill is the identity on a frame without missing
cells. -/
theorem fillFrame_id (f : VFrame)
    (h1 : allSomeCol f.Date) (h2 : allSomeCol f.Symbol)
    (h3 : allSomeCol f.Open) (h4 : allSomeCol f.High) (h5 : allSomeCol f.Low)
    (h6 : allSomeCol f.Close) (h7 : allSomeCol f.Adj_Close)
    (h8 : allSomeCol f.Volume) (h9 : allSomeCol f.Daily_Return)
    (h10 : allSomeCol f.Extreme_Return_Flag) : fillFrame f = f := by
  unfold fillFrame
  rw [fillCol_of_all_some h1, fillCol_of_all_some h2, fillCol_of_all_some h3,
    fillCol_of_all_some h4, fillCol_of_all_some h5, fillCol_of_all_some h6,
    fillCol_of_all_some h7, fillCol_of_all_some h8, fillCol_of_all_some h9,
    fillCol_of_all_some h10]

/-- The price-range repair is the identity when no price is out of range. -/
theorem rangeStage_id (cfg : Config) (f : VFrame)
    (h1 : f.Open.any (outOfRange cfg) = false)
    (h2 : f.High.any (outOfRange cfg) = false)
    (h3 : f.Low.any (outOfRange cfg) = false)
    (h4 : f.Close.any (outOfRange cfg) = false)
    (h5 : f.Adj_Close.any (outOfRange cfg) = false) :
    rangeStage cfg f = f := by
  have e : ∀ (b : Bool) (xs : List Cell), xs.any (outOfRange cfg) = false →
      (if b then rangeFix cfg xs else xs) = xs := by
    intro b xs hx
    cases b
    · rfl
    · show rangeFix cfg xs = xs
      rw [rangeFix, if_neg]
      simp [hx]
  unfold rangeStage
  rw [e f.hasOpen _ h1, e f.hasHigh _ h2, e f.hasLow _ h3, e f.hasClose _ h4,
    e f.hasAdjClose _ h5]

/-- The OHLC repair is the identity on consistent data. -/
theorem ohlcStage_id (f : VFrame)
    (hall : (zipWith4 inconsRow f.Open f.High f.Low f.Close).all
      (fun b => !b) = true)
    (h1 : f.Open.length = f.High.length) (h2 : f.Low.length = f.High.length)
    (h3 : f.Close.length = f.High.length) : ohlcStage f = f := by
  obtain ⟨e1, e2⟩ := zipWith4_fix_eq_self f.Open f.High f.Low f.Close hall
    h1 h2 h3
  unfold ohlcStage
  rw [e1, e2]

/-- The volume clamp is the identity when no volume is negative. -/
theorem volumeStage_id (f : VFrame)
    (hv : f.Volume.any (fun v => oLt v (some 0)) = false) :
    volumeStage f = f := by
  unfold volumeStage
  split
  · rw [if_neg (by simp [hv])]
  · rfl

/-- Overwriting the flag column with its own current value is the
identity. -/
theorem vframe_update_flag_self (fr : VFrame) (X : List (Option Bool))
    (h1 : fr.hasFlag = true) (h2 : fr.Extreme_Return_Flag = X) :
    ({ fr with hasFlag := true, Extreme_Return_Flag := X } : VFrame) = fr := by
  cases fr
  simp_all

/-- C5: validate is idempotent on already-clean price input: on a price
frame with no missing values, in-range prices, OHLC-consistent rows and
non-negative volume, the first run returns a table (at most adding the
extreme-return flag column) and a second run returns it unchanged. -/
theorem C5_idempotent (cfg : Config) (f : VFrame) (hcl : CleanPrice cfg f) :
    ∃ g, validate cfg f = .ok g ∧ validate cfg g = .ok g := by
  obtain ⟨hp, hO, hH, hL, cwD, cwS, cwO, cwH, cwL, cwC, cwA, cwV, cwR, cwF,
    asD, asS, asO, asH, asL, asC, asA, asV, asR, asF,
    anO, anH, anL, anC, anA, hincons, hvol⟩ := hcl
  by_cases hn : f.nrows = 0
  · exact ⟨emptyVFrame, by rw [validate, if_pos hn], by rfl⟩
  · have hc : f.hasClose = true := by
      have h := hp
      simp only [priceShaped, Bool.and_eq_true] at h
      exact h.2
    have lO : f.Open.length = f.nrows := by simpa [ColWF, hO] using cwO
    have lH : f.High.length = f.nrows := by simpa [ColWF, hH] using cwH
    have lL : f.Low.length = f.nrows := by simpa [ColWF, hL] using cwL
    have lC : f.Close.length = f.nrows := by simpa [ColWF, hc] using cwC
    have hfill := fillFrame_id f asD asS asO asH asL asC asA asV asR asF
    have hrange := rangeStage_id cfg f anO anH anL anC anA
    have hohlc := ohlcStage_id f hincons (by omega) (by omega) (by omega)
    have hvolid := volumeStage_id f hvol
    have hval : validate cfg f = .ok (flagStage f) := by
      rw [validate, if_neg hn]
      simp only [hp, hO, hH, hL, Bool.and_self, if_true]
      rw [hfill, hrange, hohlc, hvolid]
    by_cases hdr : f.hasDailyReturn = true
    case neg =>
      have hflag : flagStage f = f := by
        unfold flagStage
        rw [if_neg hdr]
      exact ⟨f, by rw [hval, hflag], by rw [hval, hflag]⟩
    case pos =>
      by_cases hany : f.Daily_Return.any extremeB = true
      case neg =>
        have hflag : flagStage f = f := by
          unfold flagStage
          rw [if_pos hdr, if_neg hany]
        exact ⟨f, by rw [hval, hflag], by rw [hval, hflag]⟩
      case pos =>
        set X := f.Daily_Return.map (fun r => some (extremeB r)) with hX
        set g : VFrame := { f with hasFlag := true, Extreme_Return_Flag := X }
          with hgdef
        have hflag : flagStage f = g := by
          unfold flagStage
          rw [if_pos hdr, if_pos hany]
        have gasF : allSomeCol g.Extreme_Return_Flag := by
          intro y hy
          obtain ⟨r, _, rfl⟩ := List.mem_map.mp (hy : y ∈ X)
          rfl
        have hfill_g : fillFrame g = g :=
          fillFrame_id g asD asS asO asH asL asC asA asV asR gasF
        have hrange_g : rangeStage cfg g = g :=
          rangeStage_id cfg g anO anH anL anC anA
        have hohlc_g : ohlcStage g = g :=
          ohlcStage_id g hincons (show f.Open.length = f.High.length by omega)
            (show f.Low.length = f.High.length by omega)
            (show f.Close.length = f.High.length by omega)
        have hvol_g : volumeStage g = g := volumeStage_id g hvol
        have hval_g : validate cfg g = .ok (flagStage g) := by
          rw [validate, if_neg (show ¬ g.nrows = 0 from hn)]
          simp only [show priceShaped g = true from hp, hp, hO, hH, hL,
            Bool.and_self, if_true]
          rw [hfill_g, hrange_g, hohlc_g, hvol_g]
        have hflag_g : flagStage g = g := by
          unfold flagStage
          rw [if_pos (show g.hasDailyReturn = true from hdr),
            if_pos (show g.Daily_Return.any extremeB = true from hany)]
        exact ⟨g, by rw [hval, hflag], by rw [hval_g, hflag_g]⟩

set_option synthInstance.maxSize 2000 in
set_option maxHeartbeats 1000000 in
/-- C5 witness: a concrete two-row clean frame, with a Daily_Return column
containing one extreme value so that the flag column is actually written on
the first pass. -/
theorem C5_idempotent_witness :
    CleanPrice cfgSmall frameClean ∧
    ∃ g, validate cfgSmall frameClean = .ok g ∧
      validate cfgSmall g = .ok g :=
  ⟨by unfold CleanPrice ColWF allSomeCol; decide,
   C5_idempotent cfgSmall frameClean
     (by unfold CleanPrice ColWF allSomeCol; decide)⟩

/-! ## Economic-branch lemmas -/

theorem length_pctChangeK (k : ℕ) (xs : List Cell) :
    (pctChangeK k xs).length = xs.length := by
  simp [pctChangeK, length_ffill]

theorem map_writeCol_other {γ : Type} {set : ERow → Cell → ERow}
    {gGet : ERow → γ} (hsg : ∀ r v, gGet (set r v) = gGet r)
    (rows : List ERow) (vals : List Cell) (hlen : vals.length = rows.length) :
    (writeCol set rows vals).map gGet = rows.map gGet := by
  induction rows generalizing vals with
  | nil => rfl
  | cons r rows ih =>
    cases vals with
    | nil => simp at hlen
    | cons v vals =>
      simp only [writeCol, List.zipWith_cons_cons, List.map_cons, hsg]
      rw [show List.zipWith set rows vals = writeCol set rows vals from rfl,
        ih vals (by simpa using hlen)]

theorem map_writeCol_same {set : ERow → Cell → ERow} {gGet : ERow → Cell}
    (hsg : ∀ r v, gGet (set r v) = v) (rows : List ERow) (vals : List Cell)
    (hlen : vals.length = rows.length) :
    (writeCol set rows vals).map gGet = vals := by
  induction rows generalizing vals with
  | nil =>
    cases vals with
    | nil => rfl
    | cons v vals => simp at hlen
  | cons r rows ih =>
    cases vals with
    | nil => simp at hlen
    | cons v vals =>
      simp only [writeCol, List.zipWith_cons_cons, List.map_cons, hsg]
      rw [show List.zipWith set rows vals = writeCol set rows vals from rfl,
        ih vals (by simpa using hlen)]

/-- The derived YoY column has the specified shape relative to its source
column. -/
theorem yoyOK_pctChangeK (xs : List Cell) : yoyOK xs (pctChangeK 12 xs) := by
  refine ⟨length_pctChangeK 12 xs, ?_, ?_⟩
  · intro i h12 hi
    rw [pctChangeK, getElem?_range_map (by rw [length_ffill]; exact hi)]
    simp [h12]
  · intro i a b h12 ha hb
    have hi : i < xs.length := (List.getElem?_eq_some.mp ha).1
    have hya : (ffill xs)[i]? = some (some a) := ffill_get_some ha
    have hyb : (ffill xs)[i - 12]? = some (some b) := ffill_get_some hb
    rw [pctChangeK, getElem?_range_map (by rw [length_ffill]; exact hi)]
    rw [if_neg (show ¬ i < 12 by omega)]
    rw [hya, hyb]

/-- A list with the same dates as a sorted list is sorted. -/
theorem sorted_of_map_date_eq {l1 l2 : List ERow}
    (h : l1.map (·.Date) = l2.map (·.Date)) (hs : List.Sorted dateLE l1) :
    List.Sorted dateLE l2 := by
  have h1 : (l1.map (·.Date)).Pairwise (· ≤ ·) :=
    List.pairwise_map.mpr hs
  rw [h] at h1
  have h2 : l2.Pairwise fun a b => a.Date ≤ b.Date := List.pairwise_map.mp h1
  exact h2

theorem econYoY1_map_other {γ : Type} (f : EFrame) (gGet : ERow → γ)
    (hsg : ∀ r v, gGet { r with GDP_Growth_YoY_Change := v } = gGet r) :
    (econYoY1 f).map gGet = (econSorted f).map gGet := by
  unfold econYoY1
  split
  · exact map_writeCol_other hsg _ _ (by rw [length_pctChangeK, List.length_map])
  · rfl

theorem econYoY2_map_other {γ : Type} (f : EFrame) (gGet : ERow → γ)
    (hsg : ∀ r v, gGet { r with Unemployment_Rate_YoY_Change := v } = gGet r) :
    (econYoY2 f).map gGet = (econYoY1 f).map gGet := by
  unfold econYoY2
  split
  · exact map_writeCol_other hsg _ _ (by rw [length_pctChangeK, List.length_map])
  · rfl

theorem econYoY3_map_other {γ : Type} (f : EFrame) (gGet : ERow → γ)
    (hsg : ∀ r v, gGet { r with Inflation_Rate_YoY_Change := v } = gGet r) :
    (econYoY3 f).map gGet = (econYoY2 f).map gGet := by
  unfold econYoY3
  split
  · exact map_writeCol_other hsg _ _ (by rw [length_pctChangeK, List.length_map])
  · rfl

theorem econYoY4_map_other {γ : Type} (f : EFrame) (gGet : ERow → γ)
    (hsg : ∀ r v, gGet { r with Interest_Rate_YoY_Change := v } = gGet r) :
    (econYoY4 f).map gGet = (econYoY3 f).map gGet := by
  unfold econYoY4
  split
  · exact map_writeCol_other hsg _ _ (by rw [length_pctChangeK, List.length_map])
  · rfl

theorem econYoY5_map_other {γ : Type} (f : EFrame) (gGet : ERow → γ)
    (hsg : ∀ r v, gGet { r with Consumer_Confidence_YoY_Change := v } = gGet r) :
    (econYoY5 f).map gGet = (econYoY4 f).map gGet := by
  unfold econYoY5
  split
  · exact map_writeCol_other hsg _ _ (by rw [length_pctChangeK, List.length_map])
  · rfl

theorem econYoY1_map_written (f : EFrame) (hG : f.hasGDP = true) :
    (econYoY1 f).map (·.GDP_Growth_YoY_Change) =
      pctChangeK 12 ((econSorted f).map (·.GDP_Growth)) := by
  unfold econYoY1
  rw [if_pos hG]
  exact map_writeCol_same (fun r v => rfl) _ _
    (by rw [length_pctChangeK, List.length_map])

theorem econYoY2_map_written (f : EFrame) (hU : f.hasUnemployment = true) :
    (econYoY2 f).map (·.Unemployment_Rate_YoY_Change) =
      pctChangeK 12 ((econYoY1 f).map (·.Unemployment_Rate)) := by
  unfold econYoY2
  rw [if_pos hU]
  exact map_writeCol_same (fun r v => rfl) _ _
    (by rw [length_pctChangeK, List.length_map])

theorem econYoY3_map_written (f : EFrame) (hI : f.hasInflation = true) :
    (econYoY3 f).map (·.Inflation_Rate_YoY_Change) =
      pctChangeK 12 ((econYoY2 f).map (·.Inflation_Rate)) := by
  unfold econYoY3
  rw [if_pos hI]
  exact map_writeCol_same (fun r v => rfl) _ _
    (by rw [length_pctChangeK, List.length_map])

theorem econYoY4_map_written (f : EFrame) (hR : f.hasInterest = true) :
    (econYoY4 f).map (·.Interest_Rate_YoY_Change) =
      pctChangeK 12 ((econYoY3 f).map (·.Interest_Rate)) := by
  unfold econYoY4
  rw [if_pos hR]
  exact map_writeCol_same (fun r v => rfl) _ _
    (by rw [length_pctChangeK, List.length_map])

theorem econYoY5_map_written (f : EFrame) (hC : f.hasConfidence = true) :
    (econYoY5 f).map (·.Consumer_Confidence_YoY_Change) =
      pctChangeK 12 ((econYoY4 f).map (·.Consumer_Confidence)) := by
  unfold econYoY5
  rw [if_pos hC]
  exact map_writeCol_same (fun r v => rfl) _ _
    (by rw [length_pctChangeK, List.length_map])

/-- C2: amended. The economic branch of calculate fires only when at least
one of GDP_Growth, Unemployment_Rate, Inflation_Rate is present (a table
with only Interest_Rate or Consumer_Confidence passes through unchanged).
When it fires on a nonempty table, the rows are sorted ascending by date,
the indicator columns are carried over unchanged, and for every one of the
five recognized indicator columns present a YoY column is added whose value
at sorted position i is value[i]/value[i-12] - 1 and which is undefined for
i < 12. -/
theorem C2_amended_econ (f : EFrame) (hne : f.rows.isEmpty = false)
    (hE : econShaped f = true) :
    List.Sorted dateLE (calculateEconomic f).rows ∧
    (calculateEconomic f).rows.map (·.Date) =
      (econSorted f).map (·.Date) ∧
    (calculateEconomic f).rows.map (·.GDP_Growth) =
      (econSorted f).map (·.GDP_Growth) ∧
    (calculateEconomic f).rows.map (·.Unemployment_Rate) =
      (econSorted f).map (·.Unemployment_Rate) ∧
    (calculateEconomic f).rows.map (·.Inflation_Rate) =
      (econSorted f).map (·.Inflation_Rate) ∧
    (calculateEconomic f).rows.map (·.Interest_Rate) =
      (econSorted f).map (·.Interest_Rate) ∧
    (calculateEconomic f).rows.map (·.Consumer_Confidence) =
      (econSorted f).map (·.Consumer_Confidence) ∧
    (f.hasGDP = true → (calculateEconomic f).hasGDPYoY = true ∧
      yoyOK ((econSorted f).map (·.GDP_Growth))
        ((calculateEconomic f).rows.map (·.GDP_Growth_YoY_Change))) ∧
    (f.hasUnemployment = true →
      (calculateEconomic f).hasUnemploymentYoY = true ∧
      yoyOK ((econSorted f).map (·.Unemployment_Rate))
        ((calculateEconomic f).rows.map (·.Unemployment_Rate_YoY_Change))) ∧
    (f.hasInflation = true → (calculateEconomic f).hasInflationYoY = true ∧
      yoyOK ((econSorted f).map (·.Inflation_Rate))
        ((calculateEconomic f).rows.map (·.Inflation_Rate_YoY_Change))) ∧
    (f.hasInterest = true → (calculateEconomic f).hasInterestYoY = true ∧
      yoyOK ((econSorted f).map (·.Interest_Rate))
        ((calculateEconomic f).rows.map (·.Interest_Rate_YoY_Change))) ∧
    (f.hasConfidence = true → (calculateEconomic f).hasConfidenceYoY = true ∧
      yoyOK ((econSorted f).map (·.Consumer_Confidence))
        ((calculateEconomic f).rows.map
          (·.Consumer_Confidence_YoY_Change))) := by
  have hcalc : calculateEconomic f = { f with
      rows := econYoY5 f
      hasGDPYoY := f.hasGDPYoY || f.hasGDP
      hasUnemploymentYoY := f.hasUnemploymentYoY || f.hasUnemployment
      hasInflationYoY := f.hasInflationYoY || f.hasInflation
      hasInterestYoY := f.hasInterestYoY || f.hasInterest
      hasConfidenceYoY := f.hasConfidenceYoY || f.hasConfidence } := by
    rw [calculateEconomic, if_neg (by simp [hne]), if_pos hE]
  have chainD : (econYoY5 f).map (·.Date) = (econSorted f).map (·.Date) := by
    rw [econYoY5_map_other f (·.Date) (fun r v => rfl),
      econYoY4_map_other f (·.Date) (fun r v => rfl),
      econYoY3_map_other f (·.Date) (fun r v => rfl),
      econYoY2_map_other f (·.Date) (fun r v => rfl),
      econYoY1_map_other f (·.Date) (fun r v => rfl)]
  have chainG : (econYoY5 f).map (·.GDP_Growth) =
      (econSorted f).map (·.GDP_Growth) := by
    rw [econYoY5_map_other f (·.GDP_Growth) (fun r v => rfl),
      econYoY4_map_other f (·.GDP_Growth) (fun r v => rfl),
      econYoY3_map_other f (·.GDP_Growth) (fun r v => rfl),
      econYoY2_map_other f (·.GDP_Growth) (fun r v => rfl),
      econYoY1_map_other f (·.GDP_Growth) (fun r v => rfl)]
  have chainU : (econYoY5 f).map (·.Unemployment_Rate) =
      (econSorted f).map (·.Unemployment_Rate) := by
    rw [econYoY5_map_other f (·.Unemployment_Rate) (fun r v => rfl),
      econYoY4_map_other f (·.Unemployment_Rate) (fun r v => rfl),
      econYoY3_map_other f (·.Unemployment_Rate) (fun r v => rfl),
      econYoY2_map_other f (·.Unemployment_Rate) (fun r v => rfl),
      econYoY1_map_other f (·.Unemployment_Rate) (fun r v => rfl)]
  have chainI : (econYoY5 f).map (·.Inflation_Rate) =
      (econSorted f).map (·.Inflation_Rate) := by
    rw [econYoY5_map_other f (·.Inflation_Rate) (fun r v => rfl),
      econYoY4_map_other f (·.Inflation_Rate) (fun r v => rfl),
      econYoY3_map_other f (·.Inflation_Rate) (fun r v => rfl),
      econYoY2_map_other f (·.Inflation_Rate) (fun r v => rfl),
      econYoY1_map_other f (·.Inflation_Rate) (fun r v => rfl)]
  have chainR : (econYoY5 f).map (·.Interest_Rate) =
      (econSorted f).map (·.Interest_Rate) := by
    rw [econYoY5_map_other f (·.Interest_Rate) (fun r v => rfl),
      econYoY4_map_other f (·.Interest_Rate) (fun r v => rfl),
      econYoY3_map_other f (·.Interest_Rate) (fun r v => rfl),
      econYoY2_map_other f (·.Interest_Rate) (fun r v => rfl),
      econYoY1_map_other f (·.Interest_Rate) (fun r v => rfl)]
  have chainC : (econYoY5 f).map (·.Consumer_Confidence) =
      (econSorted f).map (·.Consumer_Confidence) := by
    rw [econYoY5_map_other f (·.Consumer_Confidence) (fun r v => rfl),
      econYoY4_map_other f (·.Consumer_Confidence) (fun r v => rfl),
      econYoY3_map_other f (·.Consumer_Confidence) (fun r v => rfl),
      econYoY2_map_other f (·.Consumer_Confidence) (fun r v => rfl),
      econYoY1_map_other f (·.Consumer_Confidence) (fun r v => rfl)]
  have chainU1 : (econYoY1 f).map (·.Unemployment_Rate) =
      (econSorted f).map (·.Unemployment_Rate) :=
    econYoY1_map_other f (·.Unemployment_Rate) (fun r v => rfl)
  have chainI2 : (econYoY2 f).map (·.Inflation_Rate) =
      (econSorted f).map (·.Inflation_Rate) := by
    rw [econYoY2_map_other f (·.Inflation_Rate) (fun r v => rfl),
      econYoY1_map_other f (·.Inflation_Rate) (fun r v => rfl)]
  have chainR3 : (econYoY3 f).map (·.Interest_Rate) =
      (econSorted f).map (·.Interest_Rate) := by
    rw [econYoY3_map_other f (·.Interest_Rate) (fun r v => rfl),
      econYoY2_map_other f (·.Interest_Rate) (fun r v => rfl),
      econYoY1_map_other f (·.Interest_Rate) (fun r v => rfl)]
  have chainC4 : (econYoY4 f).map (·.Consumer_Confidence) =
      (econSorted f).map (·.Consumer_Confidence) := by
    rw [econYoY4_map_other f (·.Consumer_Confidence) (fun r v => rfl),
      econYoY3_map_other f (·.Consumer_Confidence) (fun r v => rfl),
      econYoY2_map_other f (·.Consumer_Confidence) (fun r v => rfl),
      econYoY1_map_other f (·.Consumer_Confidence) (fun r v => rfl)]
  have hsorted : List.Sorted dateLE (econSorted f) :=
    List.sorted_insertionSort dateLE f.rows
  rw [hcalc]
  refine ⟨?_, chainD, chainG, chainU, chainI, chainR, chainC,
    ?_, ?_, ?_, ?_, ?_⟩
  · exact sorted_of_map_date_eq chainD.symm hsorted
  · intro hG
    refine ⟨by simp [hG], ?_⟩
    show yoyOK _ ((econYoY5 f).map (·.GDP_Growth_YoY_Change))
    rw [show (econYoY5 f).map (·.GDP_Growth_YoY_Change) =
        (econYoY1 f).map (·.GDP_Growth_YoY_Change) from by
      rw [econYoY5_map_other f (·.GDP_Growth_YoY_Change) (fun r v => rfl),
        econYoY4_map_other f (·.GDP_Growth_YoY_Change) (fun r v => rfl),
        econYoY3_map_other f (·.GDP_Growth_YoY_Change) (fun r v => rfl),
        econYoY2_map_other f (·.GDP_Growth_YoY_Change) (fun r v => rfl)]]
    rw [econYoY1_map_written f hG]
    exact yoyOK_pctChangeK _
  · intro hU
    refine ⟨by simp [hU], ?_⟩
    show yoyOK _ ((econYoY5 f).map (·.Unemployment_Rate_YoY_Change))
    rw [show (econYoY5 f).map (·.Unemployment_Rate_YoY_Change) =
        (econYoY2 f).map (·.Unemployment_Rate_YoY_Change) from by
      rw [econYoY5_map_other f (·.Unemployment_Rate_YoY_Change)
          (fun r v => rfl),
        econYoY4_map_other f (·.Unemployment_Rate_YoY_Change)
          (fun r v => rfl),
        econYoY3_map_other f (·.Unemployment_Rate_YoY_Change)
          (fun r v => rfl)]]
    rw [econYoY2_map_written f hU, chainU1]
    exact yoyOK_pctChangeK _
  · intro hI
    refine ⟨by simp [hI], ?_⟩
    show yoyOK _ ((econYoY5 f).map (·.Inflation_Rate_YoY_Change))
    rw [show (econYoY5 f).map (·.Inflation_Rate_YoY_Change) =
        (econYoY3 f).map (·.Inflation_Rate_YoY_Change) from by
      rw [econYoY5_map_other f (·.Inflation_Rate_YoY_Change) (fun r v => rfl),
        econYoY4_map_other f (·.Inflation_Rate_YoY_Change) (fun r v => rfl)]]
    rw [econYoY3_map_written f hI, chainI2]
    exact yoyOK_pctChangeK _
  · intro hR
    refine ⟨by simp [hR], ?_⟩
    show yoyOK _ ((econYoY5 f).map (·.Interest_Rate_YoY_Change))
    rw [show (econYoY5 f).map (·.Interest_Rate_YoY_Change) =
        (econYoY4 f).map (·.Interest_Rate_YoY_Change) from by
      rw [econYoY5_map_other f (·.Interest_Rate_YoY_Change) (fun r v => rfl)]]
    rw [econYoY4_map_written f hR, chainR3]
    exact yoyOK_pctChangeK _
  · intro hC
    refine ⟨by simp [hC], ?_⟩
    show yoyOK _ ((econYoY5 f).map (·.Consumer_Confidence_YoY_Change))
    rw [econYoY5_map_written f hC, chainC4]
    exact yoyOK_pctChangeK _

/-- C2 witness: thirteen monthly GDP observations 100..112 take the economic
branch; the YoY column is defined only at sorted position 12 and equals
(112-100)/100 = 0.12 = 3/25. -/
theorem C2_econ_witness :
    eFrameGDP.rows.isEmpty = false ∧ econShaped eFrameGDP = true ∧
    List.Sorted dateLE (calculateEconomic eFrameGDP).rows ∧
    yoyOK ((econSorted eFrameGDP).map (·.GDP_Growth))
      ((calculateEconomic eFrameGDP).rows.map (·.GDP_Growth_YoY_Change)) ∧
    ((calculateEconomic eFrameGDP).rows.map (·.GDP_Growth_YoY_Change))[12]? =
      some (some (3 / 25)) := by
  have h := C2_amended_econ eFrameGDP (by rfl) (by rfl)
  have hy := (h.2.2.2.2.2.2.2.1 rfl).2
  refine ⟨rfl, rfl, h.1, hy, ?_⟩
  have hS12 : ((econSorted eFrameGDP).map (·.GDP_Growth))[12]? =
      some (some 112) := by rfl
  have hS0 : ((econSorted eFrameGDP).map (·.GDP_Growth))[0]? =
      some (some 100) := by rfl
  rw [hy.2.2 12 112 100 (by omega) hS12 hS0]
  norm_num
